import Mathlib

/-!
Verification development for the eapi static-analysis tool.

The definitions below are a shallow embedding of the Go source:
pure functions mirror the Go functions, stateful code threads its
state explicitly, and Go `nil` / panics are rendered with `Option`.
Definitions that embed code living outside the provided sources
(standard library or helper packages only used here) carry a doc
comment saying what they model.
-/

namespace Eapi

/-- Model of Go `strings.Trim(s, "\"")` as used by the plugins on string
literals: removes every leading and trailing double-quote character. -/
def trimQuotes (s : String) : String :=
  let l := s.data.dropWhile (fun c => c = '"')
  let r := (l.reverse.dropWhile (fun c => c = '"')).reverse
  String.mk r

/-- Modelled from the spec: Go `strconv.Unquote` on the escape-free
double-quoted fragment (the only shape the analyzed literals take).
Returns the inner text when the literal is a well-formed quoted string
without escapes, and the empty string otherwise (the Go caller discards
the error and keeps the zero value). -/
def goUnquote (s : String) : String :=
  let cs := s.data
  if _h : cs.length ≥ 2 ∧ cs.head? = some '"' ∧ cs.getLast? = some '"'
      ∧ (cs.drop 1).dropLast.all (fun c => c ≠ '"' ∧ c ≠ '\\') then
    String.mk ((cs.drop 1).dropLast)
  else
    ""

/-- Core scanner of `Plugin.normalizePath` (gin and echo plugins,
identical in both): the Go code applies the regexp `:([^\/]+)` with
`ReplaceAllStringFunc`, wrapping each maximal nonempty run of
non-slash characters that follows a colon in braces and dropping the
colon.  The scanner below performs exactly the leftmost, greedy,
non-overlapping replacement of that regexp. -/
def normSegs : List Char → List Char
  | [] => []
  | c :: rest =>
    if c = ':' then
      let seg := rest.takeWhile (fun d => d ≠ '/')
      if seg.isEmpty then
        c :: normSegs rest
      else
        Char.ofNat 123 :: (seg ++ Char.ofNat 125 :: normSegs (rest.dropWhile (fun d => d ≠ '/')))
    else
      c :: normSegs rest
termination_by l => l.length
decreasing_by
  all_goals simp_wf
  all_goals first
    | omega
    | exact Nat.lt_succ_of_le ((List.dropWhile_suffix _).sublist.length_le)

/-- `Plugin.normalizePath` from the gin plugin (the echo plugin has the
same body): rewrites each `:name` segment of a route path to `{name}`. -/
def normalizePath (p : String) : String :=
  String.mk (normSegs p.data)

/-- Split a character list on '/' into its segments. -/
def splitSlash : List Char → List (List Char)
  | [] => [[]]
  | c :: rest =>
    let r := splitSlash rest
    if c = '/' then [] :: r
    else
      match r with
      | [] => [[c]]
      | h :: t => (c :: h) :: t

/-- Join segments with '/' separators. -/
def joinSlash : List (List Char) → List Char
  | [] => []
  | [s] => s
  | s :: rest => s ++ '/' :: joinSlash rest

/-- Model of Go `path.Clean`: resolves `.` and `..` segments, squeezes
repeated slashes, never ends in a slash unless the result is root, and
returns "." for an empty cleaned path. -/
def pathClean (p : String) : String :=
  if p = "" then "." else
  let cs := p.data
  let rooted := match cs with
    | '/' :: _ => true
    | _ => false
  let segs := (splitSlash cs).foldl
    (fun (acc : List (List Char)) seg =>
      if seg = [] ∨ seg = ['.'] then acc
      else if seg = ['.', '.'] then
        match acc with
        | [] => if rooted then [] else [seg]
        | top :: tl => if top = ['.', '.'] then seg :: acc else tl
      else seg :: acc) []
  let body := joinSlash segs.reverse
  if rooted then
    String.mk ('/' :: body)
  else
    (if body = [] then "." else String.mk body)

/-- Model of Go `path.Join` on two elements as used by the plugins:
empty elements are dropped, the rest are joined with "/" and cleaned;
joining nothing yields the empty string. -/
def pathJoin (a b : String) : String :=
  if a = "" ∧ b = "" then ""
  else if a = "" then pathClean b
  else if b = "" then pathClean a
  else pathClean (String.mk (a.data ++ '/' :: b.data))

/-- Wellformedness of the colon usage in a route path: every colon in
the string begins a framework parameter, i.e. is followed by a nonempty
run of characters that contains neither '/' nor another ':'.  Paths
written in the `:name` style satisfy this. -/
def colonSegsOk : List Char → Bool
  | [] => true
  | c :: rest =>
    if c = ':' then
      let seg := rest.takeWhile (fun d => d ≠ '/')
      ¬ seg.isEmpty && seg.all (fun d => d ≠ ':') && colonSegsOk (rest.dropWhile (fun d => d ≠ '/'))
    else
      colonSegsOk rest
termination_by l => l.length
decreasing_by
  all_goals simp_wf
  all_goals first
    | omega
    | exact Nat.lt_succ_of_le ((List.dropWhile_suffix _).sublist.length_le)

/-! ## Environment and route groups (gin/echo plugin `assignStmt` / `parseAPI`) -/

/-- Modelled from the spec: the analysis environment is a scope chain;
`define` binds in the innermost scope, `resolve` walks outward to the
owning scope, `assign` writes in the owning scope, `lookup` walks
outward.  Values here are the route-group bindings the plugins store
(`analyzer.RouteGroup`, carrying a path prefix).  The chain is the list
of frames, innermost first. -/
abbrev Env := List (List (String × String))

/-- Environment `Lookup`: walk the scope chain outward and return the
bound route-group prefix. -/
def Env.lookup (e : Env) (name : String) : Option String :=
  match e with
  | [] => none
  | frame :: outer =>
    match List.lookup name frame with
    | some v => some v
    | none => Env.lookup outer name

/-- Environment `Define`: bind in the innermost frame (an empty chain
gets a fresh frame). -/
def Env.define (e : Env) (name v : String) : Env :=
  match e with
  | [] => [[(name, v)]]
  | frame :: outer => ((name, v) :: frame.filter (fun p => p.1 ≠ name)) :: outer

/-- Environment `Resolve`: index of the innermost frame that owns the
name, if any. -/
def Env.resolve (e : Env) (name : String) : Option Nat :=
  match e with
  | [] => none
  | frame :: outer =>
    if (List.lookup name frame).isSome then some 0
    else (Env.resolve outer name).map (· + 1)

/-- Environment `Assign`: overwrite the binding in the frame at the
given index. -/
def Env.assignAt (e : Env) (i : Nat) (name v : String) : Env :=
  match e, i with
  | [], _ => []
  | frame :: outer, 0 => ((name, v) :: frame.filter (fun p => p.1 ≠ name)) :: outer
  | frame :: outer, i + 1 => frame :: Env.assignAt outer i name v

/-- Go assignment token: `:=` (DEFINE) or `=` (ASSIGN). -/
inductive AssignTok where
  | define
  | assign
deriving DecidableEq, Repr

/-- Statements of the analyzed routing code that the gin plugin reacts
to: a `x := recv.Group("lit")` assignment or a `recv.VERB("lit", h)`
call with a resolvable handler. -/
inductive RouteStmt where
  | groupAssign (tok : AssignTok) (lhs recv : String) (arg0 : String)
  | verbCall (recv verb : String) (arg0 : String)
deriving DecidableEq, Repr

/-- An API registration: method plus full path, as built by
`analyzer.NewAPI(method, fullPath)`. -/
structure APIReg where
  method : String
  fullPath : String
deriving DecidableEq, Repr

/-- Route-group prefix visible for a receiver identifier, as read by
`assignStmt`/`parseAPI`: the bound prefix when the identifier resolves
to a `RouteGroup`, and the empty string otherwise. -/
def envPrefixOf (e : Env) (recv : String) : String :=
  (Env.lookup e recv).getD ""

/-- `Plugin.assignStmt` (gin plugin): on `lhs tok recv.Group(arg0)`,
bind `lhs` to a route group whose prefix is
`path.Join(enclosing prefix, normalizePath(Trim(arg0, "\"")))`;
`:=` defines in the innermost scope, `=` assigns to the owning scope
and falls back to a define when no scope owns the name. -/
def assignStmt (e : Env) (tok : AssignTok) (lhs recv arg0 : String) : Env :=
  let pfx := envPrefixOf e recv
  let rg := pathJoin pfx (normalizePath (trimQuotes arg0))
  match tok with
  | .define => e.define lhs rg
  | .assign =>
    match e.resolve lhs with
    | none => e.define lhs rg
    | some i => e.assignAt i lhs rg

/-- `Plugin.parseAPI` path computation (gin plugin): the registered API
has the verb as method and
`path.Join(prefix, normalizePath(Trim(arg0, "\"")))` as full path. -/
def parseAPIReg (e : Env) (recv verb arg0 : String) : APIReg :=
  { method := verb
    fullPath := pathJoin (envPrefixOf e recv) (normalizePath (trimQuotes arg0)) }

/-- One `Plugin.Analyze` step over the statement forms modelled here:
route-group assignments update the environment, verb calls register an
API. -/
def routeStep (st : Env × List APIReg) (s : RouteStmt) : Env × List APIReg :=
  match s with
  | .groupAssign tok lhs recv arg0 => (assignStmt st.1 tok lhs recv arg0, st.2)
  | .verbCall recv verb arg0 => (st.1, st.2 ++ [parseAPIReg st.1 recv verb arg0])

/-- Run the plugin over a statement list, starting from a given
environment and no registered APIs. -/
def runRoutes (e : Env) (l : List RouteStmt) : Env × List APIReg :=
  l.foldl routeStep (e, [])

/-! ## Definitions index (`Definitions`, `FuncDefinition.Key`,
`TypeDefinition.Key`) -/

/-- Shape of a Go method receiver as distinguished by
`FuncDefinition.Key`: no receiver, `T`, `*T`, `*T[...]` over an
identifier, `*T[...]` over a non-identifier, `*<other>`, a bare
generic receiver `T[...]`, or any other shape. -/
inductive RecvShape where
  | noRecv
  | identRecv (t : String)
  | starIdent (t : String)
  | starIndexIdent (t : String)
  | starIndexOther
  | starOther
  | indexRecv
  | otherRecv
deriving DecidableEq, Repr

/-- A `Definition` as indexed by the analyzer: a function definition
(package path, receiver shape, function name) or a type definition
(package path, type name). -/
inductive Defn where
  | funcDef (pkgPath : String) (recv : RecvShape) (name : String)
  | typeDef (pkgPath : String) (name : String)
deriving DecidableEq, Repr

/-- `FuncDefinition.Key` / `TypeDefinition.Key`: the index key.  A
one-field receiver contributes `pkg.Recv.Name` (with `*` for pointer
receivers); generic receivers that are not behind a star, or stars over
index expressions without an identifier base, yield the empty key; the
unsupported star/other receiver shapes log a warning and fall through
to the free-function key `pkg.Name`. -/
def Defn.key : Defn → String
  | .funcDef p r n =>
    match r with
    | .noRecv => p ++ "." ++ n
    | .identRecv t => p ++ "." ++ t ++ "." ++ n
    | .starIdent t => "*" ++ p ++ "." ++ t ++ "." ++ n
    | .starIndexIdent t => "*" ++ p ++ "." ++ t ++ "." ++ n
    | .starIndexOther => ""
    | .indexRecv => ""
    | .starOther => p ++ "." ++ n
    | .otherRecv => p ++ "." ++ n
  | .typeDef p n => p ++ "." ++ n

/-- The `Definitions` map, rendered as an association list keyed by the
definition key (Go `map[string]Definition`). -/
abbrev Definitions := List (String × Defn)

/-- `Definitions.Set`: computes the key and stores the definition under
it unless the key is empty, in which case the map is left unchanged.
Duplicate keys overwrite (last writer wins). -/
def Definitions.set (d : Definitions) (def_ : Defn) : Definitions :=
  let k := def_.key
  if k = "" then d
  else if (List.lookup k d).isSome then
    d.map (fun p => if p.1 = k then (k, def_) else p)
  else
    d ++ [(k, def_)]

/-- `Definitions.Get`: plain map lookup. -/
def Definitions.get (d : Definitions) (key : String) : Option Defn :=
  List.lookup key d

/-- Apply a sequence of `Definitions.Set` operations to a map. -/
def Definitions.setAll (d : Definitions) (l : List Defn) : Definitions :=
  l.foldl Definitions.set d

/-! ## Schemas and the OpenAPI document (`spec.Schema`, `spec.T`) -/

mutual
/-- The extended-type-info tag attached to a schema
(`spec.ExtendedTypeInfo`): a `specific` generic instantiation (a
reference schema plus concrete argument schemas), a `type-param` marker
(zero-based index into the enclosing generic's parameter list), or one
of the remaining kinds (object / array / map / enum), which the
normalizer treats alike; those carry at most an items schema here. -/
inductive ExtInfo where
  | specific (ty : Schema) (args : List Schema)
  | typeParam (idx : Nat)
  | simple (tag : String) (extItems : Option Schema)

/-- The `spec.Schema` record restricted to the fields the analyzed code
reads or writes: `Ref`, `Key`, `Type`, `Title`, `Description`,
`Default`, `Items`, `AdditionalProperties`, `Properties`,
`ExtendedTypeInfo`, `SpecializedFromGeneric` and `Required`.  Go's
pointer graph is rendered as a tree; `nil` schema pointers become
`Option`/`none` (`Properties` is a `map[string]*Schema`, hence the
option-valued entries). -/
inductive Schema where
  | mk (ref key ty title descr : String)
       (dflt : Option String)
       (items addProps : Option Schema)
       (props : List (String × Option Schema))
       (ext : Option ExtInfo)
       (specialized : Bool)
       (required : List String)
end

/-- Projection: `Schema.Ref`. -/
def Schema.ref : Schema → String
  | .mk r _ _ _ _ _ _ _ _ _ _ _ => r

/-- Projection: `Schema.Key`. -/
def Schema.key : Schema → String
  | .mk _ k _ _ _ _ _ _ _ _ _ _ => k

/-- Projection: `Schema.Type`. -/
def Schema.ty : Schema → String
  | .mk _ _ t _ _ _ _ _ _ _ _ _ => t

/-- Projection: `Schema.Title`. -/
def Schema.title : Schema → String
  | .mk _ _ _ t _ _ _ _ _ _ _ _ => t

/-- Projection: `Schema.Description`. -/
def Schema.descr : Schema → String
  | .mk _ _ _ _ d _ _ _ _ _ _ _ => d

/-- Projection: `Schema.Default`. -/
def Schema.dflt : Schema → Option String
  | .mk _ _ _ _ _ d _ _ _ _ _ _ => d

/-- Projection: `Schema.Items`. -/
def Schema.items : Schema → Option Schema
  | .mk _ _ _ _ _ _ i _ _ _ _ _ => i

/-- Projection: `Schema.AdditionalProperties`. -/
def Schema.addProps : Schema → Option Schema
  | .mk _ _ _ _ _ _ _ a _ _ _ _ => a

/-- Projection: `Schema.Properties`. -/
def Schema.props : Schema → List (String × Option Schema)
  | .mk _ _ _ _ _ _ _ _ p _ _ _ => p

/-- Projection: `Schema.ExtendedTypeInfo`. -/
def Schema.ext : Schema → Option ExtInfo
  | .mk _ _ _ _ _ _ _ _ _ e _ _ => e

/-- Projection: `Schema.SpecializedFromGeneric`. -/
def Schema.specialized : Schema → Bool
  | .mk _ _ _ _ _ _ _ _ _ _ s _ => s

/-- Projection: `Schema.Required`. -/
def Schema.requiredL : Schema → List String
  | .mk _ _ _ _ _ _ _ _ _ _ _ q => q

/-- Field update for `Items`. -/
def Schema.setItems : Schema → Option Schema → Schema
  | .mk r k t ti d df _ a p e s q, i => .mk r k t ti d df i a p e s q

/-- Field update for `AdditionalProperties`. -/
def Schema.setAddProps : Schema → Option Schema → Schema
  | .mk r k t ti d df i _ p e s q, a => .mk r k t ti d df i a p e s q

/-- Field update for `Properties`. -/
def Schema.setProps : Schema → List (String × Option Schema) → Schema
  | .mk r k t ti d df i a _ e s q, p => .mk r k t ti d df i a p e s q

/-- Field update for `ExtendedTypeInfo`. -/
def Schema.setExt : Schema → Option ExtInfo → Schema
  | .mk r k t ti d df i a p _ s q, e => .mk r k t ti d df i a p e s q

/-- Field update for `SpecializedFromGeneric`. -/
def Schema.setSpecialized : Schema → Bool → Schema
  | .mk r k t ti d df i a p e _ q, s => .mk r k t ti d df i a p e s q

/-- Field update for `Title`. -/
def Schema.setTitle : Schema → String → Schema
  | .mk r k t _ d df i a p e s q, ti => .mk r k t ti d df i a p e s q

/-- Field update for `Type`. -/
def Schema.setTy : Schema → String → Schema
  | .mk r k _ ti d df i a p e s q, t => .mk r k t ti d df i a p e s q

/-- Field update for `Description`. -/
def Schema.setDescr : Schema → String → Schema
  | .mk r k t ti _ df i a p e s q, d => .mk r k t ti d df i a p e s q

/-- Field update for `Default`. -/
def Schema.setDflt : Schema → Option String → Schema
  | .mk r k t ti d _ i a p e s q, df => .mk r k t ti d df i a p e s q

/-- Field update for `Required`. -/
def Schema.setRequiredL : Schema → List String → Schema
  | .mk r k t ti d df i a p e s _, q => .mk r k t ti d df i a p e s q

/-- `spec.NewSchema()`: the zero schema. -/
def Schema.empty : Schema :=
  .mk "" "" "" "" "" none none none [] none false []

/-- `Schema.WithProperty` / `WithPropertyRef`: insert or replace a
property. -/
def Schema.withProperty (s : Schema) (name : String) (v : Schema) : Schema :=
  if (List.lookup name s.props).isSome then
    s.setProps (s.props.map (fun p => if p.1 = name then (name, some v) else p))
  else
    s.setProps (s.props ++ [(name, some v)])

/-- Kind of an extended-type tag, used as an observation in theorems. -/
def extKindOf : Option ExtInfo → String
  | none => "none"
  | some (.specific _ _) => "specific"
  | some (.typeParam _) => "typeParam"
  | some (.simple t _) => "simple " ++ t

/-- The canonical component reference prefix. -/
def compSchemasRoot : String := "#/components/schemas/"

/-- `spec.RefComponentSchemas`: a bare reference schema to a component
key (modelled from the spec's canonical-reference invariant; the helper
itself is declared outside the provided sources). -/
def refComponentSchemas (key : String) : Schema :=
  .mk (compSchemasRoot ++ key) "" "" "" "" none none none [] none false []

/-- Components map of the document (`Components.Schemas`,
`map[string]*Schema`), as an association list in insertion order. -/
abbrev Comps := List (String × Option Schema)

/-- Map lookup on the components. -/
def lookupComp (c : Comps) (k : String) : Option (Option Schema) :=
  List.lookup k c

/-- Map store on the components: replace an existing key in place or
append a new one. -/
def setComp (c : Comps) (k : String) (v : Option Schema) : Comps :=
  if (List.lookup k c).isSome then
    c.map (fun p => if p.1 = k then (k, v) else p)
  else
    c ++ [(k, v)]

/-- Strip the canonical component prefix from a `$ref` string. -/
def stripCompSchemasRoot (r : String) : String :=
  if compSchemasRoot.data.isPrefixOf r.data then
    String.mk (r.data.drop compSchemasRoot.data.length)
  else r

/-- `Schema.GetKey` (declared outside the provided sources; modelled
from the spec: a schema's mangled identity is its component key when
it is a reference and its own `Key` otherwise). -/
def Schema.getKey (s : Schema) : String :=
  if s.ref ≠ "" then stripCompSchemasRoot s.ref else s.key

/-- `spec.Unref` (declared outside the provided sources; modelled from
the spec's canonical-reference invariant): resolve a reference schema
through the components, returning the schema itself when it carries no
reference; a dangling or nil target renders the Go nil dereference in
the subsequent `Clone()` as `none`. -/
def unrefDoc (c : Comps) (s : Schema) : Option Schema :=
  if s.ref = "" then some s
  else
    match lookupComp c (stripCompSchemasRoot s.ref) with
    | some (some t) => some t
    | _ => none

/-- `schemaNormalizer.modelKey`: the mangled key
`<generic-key>[<arg1-key>,<arg2-key>,…]`; no arguments yield the key
itself. -/
def modelKey (key : String) (args : List Schema) : String :=
  match args with
  | [] => key
  | a :: rest =>
    key ++ "[" ++ a.getKey ++ String.join (rest.map (fun r => "," ++ r.getKey)) ++ "]"

/-- `schemaNormalizer.mergeArgs`: replace every argument that is itself
a `type-param(j)` marker by the outer argument at index `j`; an
out-of-range index is a Go panic, rendered as `none`. -/
def mergeArgs (args args2 : List Schema) : Option (List Schema) :=
  args.mapM (fun a =>
    match a.ext with
    | some (.typeParam i) => args2[i]?
    | _ => some a)

mutual
/-- `schemaNormalizer.process`.  The Go function mutates the shared
components map (it inserts the cloned specialization under the mangled
key before descending, which is what terminates re-entrant
instantiations) and mutates the clone's children in place while
iterating them; the embedding threads the components explicitly and
writes the finished clone back at the end, which observes the same
final state because the in-progress entry is only ever consulted
through the existence check.  The outer `Option` renders divergence
and Go panics (`nil` dereference in `Clone`, argument index out of
range); the inner `Option Schema` is the Go `*Schema` result, which
can be nil.  Fuel only bounds the recursion depth. -/
def process (fuel : Nat) (comps : Comps) (ref : Schema) (args : List Schema) :
    Option (Comps × Option Schema) :=
  match fuel with
  | 0 => none
  | fuel + 1 =>
    match unrefDoc comps ref with
    | none => none
    | some target =>
      let res0 := target.setSpecialized true
      let ext := res0.ext
      let key := modelKey ref.getKey args
      let resRef := refComponentSchemas key
      if ref.ref = "" then
        match ext with
        | some (.specific t a) =>
          match mergeArgs a args with
          | none => none
          | some merged => process fuel comps t merged
        | some (.typeParam i) =>
          match args[i]? with
          | none => none
          | some arg =>
            match processKids fuel comps args res0 arg with
            | none => none
            | some (c2, resFinal, _newProps) => some (c2, some resFinal)
        | _ =>
          match processKids fuel comps args res0 res0 with
          | none => none
          | some (c2, resFinal, newProps) => some (c2, some (resFinal.setProps newProps))
      else
        if (lookupComp comps key).isSome then
          some (comps, some resRef)
        else
          let w0 := res0.setExt (some (.specific ref args))
          let comps1 := setComp comps key (some w0)
          match ext with
          | some (.specific t a) =>
            match mergeArgs a args with
            | none => none
            | some merged => process fuel comps1 t merged
          | some (.typeParam i) =>
            match args[i]? with
            | none => none
            | some arg =>
              match processKids fuel comps1 args w0 arg with
              | none => none
              | some (c2, _resFinal, newProps) =>
                some (setComp c2 key (some (w0.setProps newProps)), some resRef)
          | _ =>
            match processKids fuel comps1 args w0 w0 with
            | none => none
            | some (c2, resFinal, newProps) =>
              some (setComp c2 key (some (resFinal.setProps newProps)), some resRef)

/-- Child traversal of `schemaNormalizer.process`: items, additional
properties and properties.  The guards read the schema the Go variable
`schema` points to while the writes land on `res` (they are the same
object except when a `type-param` substitution replaced `res`, in
which case the property writes land on the clone, matching the
source).  Returns the threaded components, the updated `res`, and the
rewritten property list of the clone. -/
def processKids (fuel : Nat) (comps : Comps) (args : List Schema) (guided res : Schema) :
    Option (Comps × Schema × List (String × Option Schema)) :=
  match fuel with
  | 0 => none
  | fuel + 1 =>
    let itemsStep : Option (Comps × Schema) :=
      if guided.items.isSome then
        match res.items with
        | none => none
        | some it =>
          match process fuel comps it args with
          | none => none
          | some (c1, r1) => some (c1, res.setItems r1)
      else some (comps, res)
    match itemsStep with
    | none => none
    | some (c1, res1) =>
      let addStep : Option (Comps × Schema) :=
        if guided.addProps.isSome then
          match res1.addProps with
          | none => none
          | some ap =>
            match process fuel c1 ap args with
            | none => none
            | some (c2, r2) => some (c2, res1.setAddProps r2)
        else some (c1, res1)
      match addStep with
      | none => none
      | some (c2, res2) =>
        match processProps fuel c2 guided.props args with
        | none => none
        | some (c3, newProps) => some (c3, res2, newProps)

/-- Property loop of `schemaNormalizer.process`: rewrite every property
value with a recursive `process` call (a nil property value is a Go
panic inside `Unref`/`Clone`, rendered as `none`). -/
def processProps (fuel : Nat) (comps : Comps) (props : List (String × Option Schema))
    (args : List Schema) : Option (Comps × List (String × Option Schema)) :=
  match fuel with
  | 0 => none
  | fuel + 1 =>
    match props with
    | [] => some (comps, [])
    | (k, v) :: rest =>
      match v with
      | none => none
      | some pv =>
        match process fuel comps pv args with
        | none => none
        | some (c1, r1) =>
          match processProps fuel c1 rest args with
          | none => none
          | some (c2, rest') => some (c2, (k, r1) :: rest')
end

/-- Media type object (`spec.MediaType`): carries the schema of the
content. -/
structure MediaT where
  schema : Option Schema

/-- Request body object (`spec.RequestBody`): a `$ref` escape hatch and
a content map from media type to media object. -/
structure RequestBodyO where
  ref : String
  content : List (String × Option MediaT)

/-- Response object (`spec.Response`): its content map. -/
structure ResponseO where
  content : List (String × Option MediaT)

/-- Operation object restricted to what the normalizer touches:
responses (status → response) and the request body. -/
structure OperationO where
  responses : List (String × Option ResponseO)
  requestBody : Option RequestBodyO

/-- Path item (`spec.PathItem`): one operation slot per HTTP method. -/
structure PathItemO where
  connect : Option OperationO := none
  delete : Option OperationO := none
  get : Option OperationO := none
  head : Option OperationO := none
  options : Option OperationO := none
  patch : Option OperationO := none
  post : Option OperationO := none
  put : Option OperationO := none
  trace : Option OperationO := none

/-- The OpenAPI document `spec.T` restricted to what the normalizer
touches: component schemas and paths. -/
structure T where
  components : Comps
  paths : List (String × Option PathItemO)

/-- `schemaNormalizer.processSchemaRef`: a nil schema, a reference, a
schema without extended info or with non-`specific` info is returned
unchanged; a `specific` marker is expanded through `process`. -/
def processSchemaRef (fuel : Nat) (comps : Comps) (s : Option Schema) :
    Option (Comps × Option Schema) :=
  match s with
  | none => some (comps, none)
  | some sc =>
    if sc.ref ≠ "" then some (comps, some sc)
    else
      match sc.ext with
      | some (.specific t a) => process fuel comps t a
      | _ => some (comps, some sc)

/-- Content-map walk shared by responses and request bodies: each
non-nil media type gets its schema replaced by
`processSchemaRef`. -/
def processMediaList (fuel : Nat) (comps : Comps) (l : List (String × Option MediaT)) :
    Option (Comps × List (String × Option MediaT)) :=
  match l with
  | [] => some (comps, [])
  | (k, none) :: rest =>
    match processMediaList fuel comps rest with
    | none => none
    | some (c1, rest') => some (c1, (k, none) :: rest')
  | (k, some mt) :: rest =>
    match processSchemaRef fuel comps mt.schema with
    | none => none
    | some (c1, s') =>
      match processMediaList fuel c1 rest with
      | none => none
      | some (c2, rest') => some (c2, (k, some ⟨s'⟩) :: rest')

/-- Response loop of `schemaNormalizer.processOperation`. -/
def processResponses (fuel : Nat) (comps : Comps) (l : List (String × Option ResponseO)) :
    Option (Comps × List (String × Option ResponseO)) :=
  match l with
  | [] => some (comps, [])
  | (k, none) :: rest =>
    match processResponses fuel comps rest with
    | none => none
    | some (c1, rest') => some (c1, (k, none) :: rest')
  | (k, some r) :: rest =>
    match processMediaList fuel comps r.content with
    | none => none
    | some (c1, content') =>
      match processResponses fuel c1 rest with
      | none => none
      | some (c2, rest') => some (c2, (k, some ⟨content'⟩) :: rest')

/-- `schemaNormalizer.processOperation`: first the responses, then the
request body (skipped when absent or itself a reference). -/
def processOperationN (fuel : Nat) (comps : Comps) (op : OperationO) :
    Option (Comps × OperationO) :=
  match processResponses fuel comps op.responses with
  | none => none
  | some (c1, responses') =>
    match op.requestBody with
    | none => some (c1, { op with responses := responses' })
    | some rb =>
      if rb.ref = "" then
        match processMediaList fuel c1 rb.content with
        | none => none
        | some (c2, content') =>
          some (c2, { responses := responses', requestBody := some { rb with content := content' } })
      else
        some (c1, { op with responses := responses' })

/-- Operation slot helper: nil operations are skipped. -/
def processOpSlot (fuel : Nat) (comps : Comps) (op : Option OperationO) :
    Option (Comps × Option OperationO) :=
  match op with
  | none => some (comps, none)
  | some o =>
    match processOperationN fuel comps o with
    | none => none
    | some (c1, o') => some (c1, some o')

/-- `schemaNormalizer.processPathItem`: the nine operation slots in the
source's order (connect, delete, get, head, options, patch, post, put,
trace). -/
def processPathItemN (fuel : Nat) (comps : Comps) (item : Option PathItemO) :
    Option (Comps × Option PathItemO) :=
  match item with
  | none => some (comps, none)
  | some it =>
    match processOpSlot fuel comps it.connect with
    | none => none
    | some (c1, connect') =>
    match processOpSlot fuel c1 it.delete with
    | none => none
    | some (c2, delete') =>
    match processOpSlot fuel c2 it.get with
    | none => none
    | some (c3, get') =>
    match processOpSlot fuel c3 it.head with
    | none => none
    | some (c4, head') =>
    match processOpSlot fuel c4 it.options with
    | none => none
    | some (c5, options') =>
    match processOpSlot fuel c5 it.patch with
    | none => none
    | some (c6, patch') =>
    match processOpSlot fuel c6 it.post with
    | none => none
    | some (c7, post') =>
    match processOpSlot fuel c7 it.put with
    | none => none
    | some (c8, put') =>
    match processOpSlot fuel c8 it.trace with
    | none => none
    | some (c9, trace') =>
      some (c9, some { connect := connect', delete := delete', get := get', head := head',
                       options := options', patch := patch', post := post', put := put',
                       trace := trace' })

/-- Paths loop of `schemaNormalizer.normalize`. -/
def processPathsList (fuel : Nat) (comps : Comps) (l : List (String × Option PathItemO)) :
    Option (Comps × List (String × Option PathItemO)) :=
  match l with
  | [] => some (comps, [])
  | (k, item) :: rest =>
    match processPathItemN fuel comps item with
    | none => none
    | some (c1, item') =>
      match processPathsList fuel c1 rest with
      | none => none
      | some (c2, rest') => some (c2, (k, item') :: rest')

/-- Components loop of `schemaNormalizer.normalize`: iterate over the
keys present when the loop starts (Go ranges over the live map, but
the loop only inserts fresh mangled keys, which Go is free to skip;
the embedding fixes the snapshot order of the association list), skip
nil, referenced, and non-`specific` entries, and overwrite `specific`
entries with the processed result. -/
def normalizeComponentsLoop (fuel : Nat) (comps : Comps) : List String → Option Comps
  | [] => some comps
  | k :: ks =>
    match lookupComp comps k with
    | some (some s) =>
      if s.ref ≠ "" then normalizeComponentsLoop fuel comps ks
      else
        match s.ext with
        | some (.specific t a) =>
          match process fuel comps t a with
          | none => none
          | some (c1, r) => normalizeComponentsLoop fuel (setComp c1 k r) ks
        | _ => normalizeComponentsLoop fuel comps ks
    | _ => normalizeComponentsLoop fuel comps ks

/-- `schemaNormalizer.normalize` (the body of `Doc().Specialize()`):
first the components, then every path item. -/
def normalize (fuel : Nat) (doc : T) : Option T :=
  match normalizeComponentsLoop fuel doc.components (doc.components.map (·.1)) with
  | none => none
  | some comps1 =>
    match processPathsList fuel comps1 doc.paths with
    | none => none
    | some (comps2, paths') => some { components := comps2, paths := paths' }

/-- Fuel-defaulted normalizer used to state idempotence: a run that
exhausts its fuel keeps the document (the counterexamples and theorems
below always run within fuel). -/
def normalizeD (fuel : Nat) (doc : T) : T :=
  (normalize fuel doc).getD doc

/-- Field update for `Key`. -/
def Schema.setKey : Schema → String → Schema
  | .mk r _ t ti d df i a p e s q, k => .mk r k t ti d df i a p e s q

/-! ## Concrete document fixture for the normalizer claims -/

/-- A `type-param(0)` marker schema, as the type-to-schema builder
leaves inside a generic template. -/
def tpMarker : Schema := Schema.empty.setExt (some (.typeParam 0))

/-- A plain string schema with mangled identity `string`. -/
def strSchema : Schema := (Schema.empty.setTy "string").setKey "string"

/-- A generic component template `G[T] = object { a : T }`: object
extended info, one property holding a `type-param(0)` marker. -/
def genericG : Schema :=
  (((Schema.empty.setTy "object").setKey "G").setProps [("a", some tpMarker)]).setExt
    (some (.simple "object" none))

/-- A reference to the generic component `G`. -/
def refG : Schema := refComponentSchemas "G"

/-- A usage-site schema `specific(G, [string])`, as the builder leaves
at an instantiation site. -/
def specUse : Schema := Schema.empty.setExt (some (.specific refG [strSchema]))

/-- An operation whose JSON request body carries the `specific`
usage. -/
def fixtureOp : OperationO :=
  { responses := [],
    requestBody := some { ref := "", content := [("application/json", some ⟨some specUse⟩)] } }

/-- The fixture document: the generic template under `G` and a GET
operation using `G[string]` as request body. -/
def fixtureDoc : T :=
  { components := [("G", some genericG)],
    paths := [("/x", some { get := some fixtureOp })] }

/-- Observation: extended-type kind of the component stored under a
key. -/
def compExtKind (doc : T) (k : String) : String :=
  match lookupComp doc.components k with
  | some (some s) => extKindOf s.ext
  | some none => "nil entry"
  | none => "absent"

/-- Observation: extended-type kind of a property of the component
stored under a key. -/
def compPropExtKind (doc : T) (k p : String) : String :=
  match lookupComp doc.components k with
  | some (some s) =>
    (match List.lookup p s.props with
     | some (some ps) => extKindOf ps.ext
     | _ => "absent")
  | _ => "absent"

/-- Observation: the `Ref` field of the component stored under a
key. -/
def compRefField (doc : T) (k : String) : String :=
  match lookupComp doc.components k with
  | some (some s) => s.ref
  | _ => "absent"

/-- Observation: the `Ref` field of the schema at a request-body media
type of the GET operation of a path. -/
def reqBodySchemaRef (doc : T) (path mt : String) : String :=
  match List.lookup path doc.paths with
  | some (some item) =>
    (match item.get with
     | some op =>
       (match op.requestBody with
        | some rb =>
          (match List.lookup mt rb.content with
           | some (some m) =>
             (match m.schema with
              | some s => s.ref
              | none => "nil schema")
           | _ => "absent")
        | none => "absent")
     | none => "absent")
  | _ => "absent"

/-! ## Handler analyzer (gin plugin) -/

/-- Content-type constants of the analyzer package (declared outside
the provided sources; modelled from the spec, whose form-data scenario
uses `multipart/form-data`). -/
def MimeTypeFormData : String := "multipart/form-data"

/-- The analyzer's JSON media type constant. -/
def MimeTypeJson : String := "application/json"

/-- The analyzer's XML media type constant. -/
def MimeApplicationXml : String := "application/xml"

/-- A Go argument expression as far as the handler analyzer
distinguishes it: a `*ast.BasicLit` with its raw source text (quotes
included) or anything else. -/
inductive GoExpr where
  | lit (raw : String)
  | nonLit
deriving DecidableEq, Repr

/-- A parameter (`spec.Parameter`): name, location (`in`), required
flag, schema and description. -/
structure Parameter where
  name : String
  loc : String
  required : Bool
  schema : Option Schema
  descr : String

/-- Heading comment data consumed by the handler analyzer: its text and
its `@required` marker. -/
structure CommentInfo where
  text : String := ""
  requiredTag : Bool := false

/-- `spec.NewPathParameter` (declared outside the provided sources;
modelled from the spec invariant that path parameters carry
`in = "path"` and `required = true`). -/
def newPathParameter (name : String) : Parameter :=
  { name := name, loc := "path", required := true, schema := none, descr := "" }

/-- `spec.NewQueryParameter` (declared outside the provided sources;
modelled from the spec: a query parameter, not required by
default). -/
def newQueryParameter (name : String) : Parameter :=
  { name := name, loc := "query", required := false, schema := none, descr := "" }

/-- `handlerAnalyzer.primitiveParam`: requires a literal first
argument; produces a parameter named by the unquoted literal whose
schema is a string schema titled by the name; query parameters take
the comment's `@required` flag, any location other than path or query
yields nothing. -/
def primitiveParam (cmt : CommentInfo) (args : List GoExpr) (loc : String) : Option Parameter :=
  match args with
  | [] => none
  | a0 :: _ =>
    match a0 with
    | .nonLit => none
    | .lit raw =>
      let name := trimQuotes raw
      let paramSchema := (Schema.empty.setTitle name).setTy "string"
      let res : Option Parameter :=
        if loc = "path" then
          some { newPathParameter name with schema := some paramSchema }
        else if loc = "query" then
          some { newQueryParameter name with schema := some paramSchema, required := cmt.requiredTag }
        else none
      res.map (fun p => { p with descr := cmt.text })

/-- `handlerAnalyzer.primitiveParamWithDefault`: needs at least two
arguments; builds the primitive parameter, then stores the
`strconv.Unquote` of the second literal as the schema default (a
non-literal second argument yields nothing). -/
def primitiveParamWithDefault (cmt : CommentInfo) (args : List GoExpr) (loc : String) :
    Option Parameter :=
  match args with
  | a0 :: a1 :: _ =>
    match primitiveParam cmt (a0 :: a1 :: []) loc with
    | none => none
    | some p =>
      match a1 with
      | .nonLit => none
      | .lit raw1 =>
        some { p with schema := p.schema.map (fun s => s.setDflt (some (goUnquote raw1))) }
  | _ => none

/-- Model of `strcase.ToCamel` (external library): uppercase the first
letter and every letter that follows a separator (space, underscore,
dash or dot), dropping the separators.  Only the shape of the derived
component title depends on it. -/
def toCamel (s : String) : String :=
  let sep := fun c => c = ' ' ∨ c = '_' ∨ c = '-' ∨ c = '.'
  let step := fun (acc : List Char × Bool) (c : Char) =>
    if sep c then (acc.1, true)
    else if acc.2 then (acc.1 ++ [c.toUpper], false)
    else (acc.1 ++ [c], false)
  String.mk (s.data.foldl step ([], true)).1

/-- State threaded through `handlerAnalyzer.parseFormData`: the
document components, the operation's request body and the operation
id used to derive a fresh component title. -/
structure FormState where
  comps : Comps
  requestBody : Option RequestBodyO
  opId : String

/-- `handlerAnalyzer.parseFormData`: requires a literal first argument
naming the form field; builds a property schema titled by the name and
typed by the given field type (with the caller's options applied and
the heading comment as description), materializes the form-data
request body and media type on demand, and adds the property to the
media type's schema: through the components when the media schema is
a reference, in place when it is inline, and under a fresh
`<camel OperationID>Request` component when there is none yet.
`@required` appends the name to the target schema's required list.
The second and later arguments are never read.  A dangling media
schema reference is the Go nil dereference, rendered as `none`. -/
def parseFormData (st : FormState) (args : List GoExpr) (fieldType : String)
    (applyOpts : Schema → Schema) (cmt : CommentInfo) : Option FormState :=
  match args with
  | [] => some st
  | a0 :: _ =>
    match a0 with
    | .nonLit => some st
    | .lit raw =>
      let name := trimQuotes raw
      let paramSchema0 := applyOpts ((Schema.empty.setTitle name).setTy fieldType)
      let paramSchema := paramSchema0.setDescr cmt.text
      let rb := match st.requestBody with
        | some rb => rb
        | none => { ref := "", content := [] }
      let (rb1, mtSchema) := match List.lookup MimeTypeFormData rb.content with
        | some (some mt) => (rb, mt.schema)
        | _ => ({ rb with content := setMT rb.content MimeTypeFormData (some ⟨none⟩) }, none)
      match mtSchema with
      | some sr =>
        if sr.ref ≠ "" then
          match lookupComp st.comps (stripCompSchemasRoot sr.ref) with
          | some (some target) =>
            let target1 := target.withProperty name paramSchema
            let target2 := if cmt.requiredTag then target1.setRequiredL (target1.requiredL ++ [name]) else target1
            some { st with comps := setComp st.comps (stripCompSchemasRoot sr.ref) (some target2),
                           requestBody := some rb1 }
          | _ => none
        else
          let sr1 := sr.withProperty name paramSchema
          let sr2 := if cmt.requiredTag then sr1.setRequiredL (sr1.requiredL ++ [name]) else sr1
          let rb2 := { rb1 with content := setMT rb1.content MimeTypeFormData (some ⟨some sr2⟩) }
          some { st with requestBody := some rb2 }
      | none =>
        let title := toCamel st.opId ++ "Request"
        let fresh0 := (Schema.empty.setTy "object").setTitle title |>.withProperty name paramSchema
        let fresh := if cmt.requiredTag then fresh0.setRequiredL (fresh0.requiredL ++ [name]) else fresh0
        let content2 := setMT rb1.content MimeTypeFormData (some ⟨some (refComponentSchemas title)⟩)
        let rb2 := { rb1 with content := content2 }
        some { comps := setComp st.comps title (some fresh),
               requestBody := some rb2,
               opId := st.opId }
where
  /-- Replace-or-append on a content map. -/
  setMT (c : List (String × Option MediaT)) (k : String) (v : Option MediaT) :
      List (String × Option MediaT) :=
    if (List.lookup k c).isSome then
      c.map (fun p => if p.1 = k then (k, v) else p)
    else
      c ++ [(k, v)]

/-- Dispatch of the `DefaultPostForm` case in `handlerAnalyzer.Parse`:
`parseFormData(call, "string")` with no options. -/
def defaultPostFormStep (st : FormState) (args : List GoExpr) (cmt : CommentInfo) :
    Option FormState :=
  parseFormData st args "string" id cmt

/-- A struct field as the uri-binding path sees it: field name, parsed
tag map (the tag parser is declared outside the provided sources;
modelled from the spec it splits a tag literal into a key → value
map), and the field's translated schema. -/
structure UriField where
  name : String
  tags : List (String × String)
  sch : Schema

/-- Go `strings.Cut(v, ",")` first component: the text before the
first comma (the whole string when there is none). -/
def cutComma (v : String) : String :=
  String.mk (v.data.takeWhile (fun c => c ≠ ','))

/-- `handlerAnalyzer.parseUriFieldName`: the first comma-separated
field of the `uri` tag when present, the field name otherwise. -/
def parseUriFieldName (f : UriField) : String :=
  match List.lookup "uri" f.tags with
  | none => f.name
  | some v => cutComma v

/-- Modelled from the spec: the schema builder run with
`WithFieldNameParser(parseUriFieldName)` translates a struct into an
object schema whose property names come from the field-name parser
(later duplicates overwrite earlier ones, as in a map). -/
def buildUriSchema (fields : List UriField) : Schema :=
  fields.foldl (fun s f => s.withProperty (parseUriFieldName f) f.sch) Schema.empty

/-- `handlerAnalyzer.parseBindUri` property loop: for each property of
the translated schema, drop every parameter of the same name
(`lo.Filter`) and append a path parameter named by the property whose
schema and description come from the property (`AddParameter` is
declared outside the provided sources; modelled from the spec it
appends).  A nil property schema is the Go nil dereference on
`property.Description`, rendered as `none`. -/
def parseBindUri (params : List Parameter) (props : List (String × Option Schema)) :
    Option (List Parameter) :=
  match props with
  | [] => some params
  | (_, none) :: _ => none
  | (n, some pr) :: rest =>
    let params1 := (params.filter (fun p => p.name ≠ n)) ++
      [{ newPathParameter n with schema := some pr, descr := pr.descr }]
    parseBindUri params1 rest

/-- Binding selector argument of `ShouldBindWith`/`MustBindWith`: a
selector expression such as `binding.JSON`, a bare identifier, or any
other expression. -/
inductive BindingExpr where
  | sel (name : String)
  | identE (name : String)
  | otherE
deriving DecidableEq, Repr

/-- `handlerAnalyzer.getContentTypeFromBinding`: the media type of a
recognized binding selector; identifiers and unknown selectors map to
the empty string (and so do the recognized `Uri` and `Header`
selectors). -/
def getContentTypeFromBinding : BindingExpr → String
  | .sel n =>
    if n = "JSON" then MimeTypeJson
    else if n = "XML" then MimeApplicationXml
    else if n = "YAML" then "application/yaml"
    else if n = "TOML" then "application/toml"
    else if n = "Form" then MimeTypeFormData
    else if n = "FormPost" then MimeTypeFormData
    else if n = "FormMultipart" then "multipart/form-data"
    else if n = "ProtoBuf" then "application/x-protobuf"
    else if n = "MsgPack" then "application/x-msgpack"
    else if n = "Query" then "application/x-www-form-urlencoded"
    else if n = "Uri" then ""
    else if n = "Header" then ""
    else ""
  | .identE _ => ""
  | .otherE => ""

/-- Observable outcome of `handlerAnalyzer.parseBindWith`: fewer than
two arguments only logs a warning and returns; an empty inferred
content type or an unresolvable schema logs a warning and calls
`os.Exit(1)`; otherwise the request body is bound under the inferred
content type. -/
inductive BindOutcome where
  | warnedTooFewArgs
  | exitOne
  | boundBody (contentType : String)
deriving DecidableEq, Repr

/-- `handlerAnalyzer.parseBindWith`.  The strict-mode flag is threaded
to show that the source never consults it on this path. -/
def parseBindWith (strictMode : Bool) (args : List BindingExpr) (schemaResolves : Bool) :
    BindOutcome :=
  match args with
  | _ :: b :: _ =>
    let ct := getContentTypeFromBinding b
    if ct = "" then .exitOne
    else if ¬ schemaResolves then .exitOne
    else .boundBody ct
  | _ => .warnedTooFewArgs

/-! ## Top-level-specific-marker freedom: the class of documents the
components loop and `processSchemaRef` leave untouched -/

/-- A schema slot the normalizer leaves unchanged: absent, a
reference, or not marked `specific` at its top level. -/
def schemaTopSpecFree : Option Schema → Bool
  | none => true
  | some s =>
    s.ref ≠ "" ||
      (match s.ext with
       | some (.specific _ _) => false
       | _ => true)

/-- A media-type slot whose schema is left unchanged. -/
def mtSpecFree : Option MediaT → Bool
  | none => true
  | some m => schemaTopSpecFree m.schema

/-- A content map whose media types are all left unchanged. -/
def contentSpecFree (l : List (String × Option MediaT)) : Bool :=
  l.all (fun p => mtSpecFree p.2)

/-- A response slot left unchanged. -/
def respSpecFree : Option ResponseO → Bool
  | none => true
  | some r => contentSpecFree r.content

/-- A request body left unchanged (absent, a reference, or with
untouched content). -/
def rbSpecFree : Option RequestBodyO → Bool
  | none => true
  | some rb => rb.ref ≠ "" || contentSpecFree rb.content

/-- An operation slot left unchanged. -/
def opSpecFree : Option OperationO → Bool
  | none => true
  | some op => op.responses.all (fun p => respSpecFree p.2) && rbSpecFree op.requestBody

/-- A path item left unchanged. -/
def itemSpecFree : Option PathItemO → Bool
  | none => true
  | some it =>
    opSpecFree it.connect && opSpecFree it.delete && opSpecFree it.get &&
      opSpecFree it.head && opSpecFree it.options && opSpecFree it.patch &&
      opSpecFree it.post && opSpecFree it.put && opSpecFree it.trace

/-- A document with no top-level `specific` marker at any position the
normalizer inspects. -/
def docTopSpecFree (d : T) : Bool :=
  d.components.all (fun p => schemaTopSpecFree p.2) && d.paths.all (fun p => itemSpecFree p.2)

/-! ## Fixtures and observations for the handler-analyzer claims -/

/-- The route-group composition scenario
`g := r.Group("/api"); v2 := g.Group("/v2"); v2.GET("/x", h)`. -/
def scenarioStmts : List RouteStmt :=
  [ .groupAssign .define "g" "r" "\"/api\"",
    .groupAssign .define "v2" "g" "\"/v2\"",
    .verbCall "v2" "GET" "\"/x\"" ]

/-- Fresh handler-analyzer form state for an operation with id
`shop.GoodsDown` and no request body yet. -/
def goodsDownState : FormState :=
  { comps := [], requestBody := none, opId := "shop.GoodsDown" }

/-- Observation: the stored default of a form-data property, reached
through the component under the given key (`some d` when the property
exists and carries default `d`). -/
def formPropDefault (st : Option FormState) (compKey prop : String) :
    Option (Option String) :=
  match st with
  | none => none
  | some s =>
    match lookupComp s.comps compKey with
    | some (some sc) =>
      (match List.lookup prop sc.props with
       | some (some p) => some p.dflt
       | _ => none)
    | _ => none

/-- Observation: the title of a form-data property stored under a
component key. -/
def formPropTitle (st : Option FormState) (compKey prop : String) : Option String :=
  match st with
  | none => none
  | some s =>
    match lookupComp s.comps compKey with
    | some (some sc) =>
      (match List.lookup prop sc.props with
       | some (some p) => some p.title
       | _ => none)
    | _ => none

/-! ## Entrypoint configuration (`Entrypoint.Run` / `Entrypoint.before`) -/

/-- Command-line flags of a run: `some` when the user passed the flag. -/
structure CliFlags where
  plugin : Option String := none
  dir : Option String := none
  output : Option String := none
  depends : Option (List String) := none
  strict : Option Bool := none
  logLevel : Option String := none
  config : Option String := none

/-- Values a YAML config file provides (`some` when the key is
present). -/
structure YamlConf where
  plugin : Option String := none
  dir : Option String := none
  output : Option String := none
  depends : Option (List String) := none
  strictMode : Option Bool := none
  logLevel : Option String := none

/-- The effective configuration (`eapi.Config`). -/
structure RunConfig where
  plugin : String
  dir : String
  output : String
  depends : List String
  strictMode : Bool
  logLevel : String
deriving DecidableEq, Repr

/-- `NewEntrypoint` presets. -/
def newEntrypointCfg : RunConfig :=
  { plugin := "gin", dir := ".", output := "docs", depends := [], strictMode := false,
    logLevel := "info" }

/-- Flag parsing in `Entrypoint.Run` with `Destination`-bound flags
(urfave/cli semantics, modelled from that library's documented
behavior): applying a flag initializes its destination with the flag's
declared default — the empty string for `plugin`/`dir`/`output`,
`false` for `strict`, `"info"` for `log-level` — and overwrites it
with the user's value when the flag is passed; the `depends` flag uses
an `Action` callback that only fires when the flag is passed. -/
def applyFlagParsing (cfg : RunConfig) (f : CliFlags) : RunConfig :=
  { plugin := f.plugin.getD ""
    dir := f.dir.getD ""
    output := f.output.getD ""
    depends := f.depends.getD cfg.depends
    strictMode := (f.strict.getD false)
    logLevel := f.logLevel.getD "info" }

/-- `koanf.Unmarshal` of the loaded YAML over the config struct: every
key present in the file overwrites the corresponding field, absent
keys leave the field alone. -/
def applyYamlUnmarshal (cfg : RunConfig) (y : YamlConf) : RunConfig :=
  { plugin := y.plugin.getD cfg.plugin
    dir := y.dir.getD cfg.dir
    output := y.output.getD cfg.output
    depends := y.depends.getD cfg.depends
    strictMode := y.strictMode.getD cfg.strictMode
    logLevel := y.logLevel.getD cfg.logLevel }

/-- The configuration dataflow of `Entrypoint.Run` followed by
`Entrypoint.before` (the `before` of the version with
`Destination`-bound flags, which `run` invokes after flag parsing):
flags land in the config struct during parsing, then `before` loads
the explicit `--config` file or the implicit `eapi.yaml` when present
and unmarshals it over the struct, then applies the empty-value
fallbacks and rejects an empty plugin. -/
def entrypointEffectiveConfig (f : CliFlags) (explicitFile implicitEapiYaml : Option YamlConf) :
    Except String RunConfig :=
  let cfg0 := applyFlagParsing newEntrypointCfg f
  let chosen := match f.config with
    | some _ => explicitFile
    | none => implicitEapiYaml
  let cfg1 := match chosen with
    | some y => applyYamlUnmarshal cfg0 y
    | none => cfg0
  if cfg1.plugin = "" then
    .error "plugin is not set"
  else
    let cfg2 := if cfg1.dir = "" then { cfg1 with dir := "." } else cfg1
    let cfg3 := if cfg2.output = "" then { cfg2 with output := "docs" } else cfg2
    .ok cfg3

/-! ## Helper lemmas -/

/-- Membership from a successful association-list lookup. -/
theorem lookup_mem {β : Type} {k : String} {v : β} :
    ∀ {l : List (String × β)}, List.lookup k l = some v → (k, v) ∈ l := by
  intro l
  induction l with
  | nil => intro h; simp [List.lookup] at h
  | cons a t ih =>
    intro h
    rw [List.lookup] at h
    by_cases hk : k == a.1
    · simp [hk] at h
      have : k = a.1 := by simpa using hk
      subst this
      cases a
      simp_all
    · simp [hk] at h
      exact List.mem_cons_of_mem _ (ih h)

/-- One `Definitions.Set` step keeps every stored key nonempty. -/
theorem definitions_set_keys (d : Definitions) (x : Defn)
    (hd : ∀ kv ∈ d, kv.1 ≠ "") : ∀ kv ∈ d.set x, kv.1 ≠ "" := by
  intro kv hkv
  unfold Definitions.set at hkv
  by_cases hk : x.key = ""
  · simp [hk] at hkv; exact hd kv hkv
  · simp [hk] at hkv
    split at hkv
    · rcases List.mem_map.mp hkv with ⟨p, hp, hpe⟩
      by_cases hpk : p.1 = x.key
      · simp [hpk] at hpe; subst hpe; simpa using hk
      · simp [hpk] at hpe; subst hpe; exact hd p hp
    · rcases List.mem_append.mp hkv with h | h
      · exact hd kv h
      · simp at h; subst h; simpa using hk

/-- Any sequence of `Definitions.Set` operations keeps every stored key nonempty. -/
theorem definitions_setAll_keys (ops : List Defn) :
    ∀ (d : Definitions), (∀ kv ∈ d, kv.1 ≠ "") →
      ∀ kv ∈ d.setAll ops, kv.1 ≠ "" := by
  induction ops with
  | nil => intro d hd kv hkv; exact hd kv hkv
  | cons x rest ih =>
    intro d hd kv hkv
    exact ih (d.set x) (definitions_set_keys d x hd) kv hkv

/-- The path scanner never adds or removes a star character. -/
theorem normSegs_count_star (l : List Char) :
    (normSegs l).count '*' = l.count '*' := by
  induction l using normSegs.induct
  case case1 => simp [normSegs]
  case case2 rest seg hseg ih =>
    rw [normSegs]
    have hseg' : ((rest.takeWhile (fun d => d ≠ '/')).isEmpty = true) := hseg
    simp only [if_pos rfl, hseg', if_true, if_pos hseg']
    simp [List.count_cons, ih]
  case case3 rest seg hseg ih =>
    rw [normSegs]
    have hseg' : ¬ ((rest.takeWhile (fun d => d ≠ '/')).isEmpty = true) := hseg
    simp only [if_pos rfl, if_neg hseg']
    simp only [ne_eq, decide_not] at ih ⊢
    simp [List.count_cons, List.count_append, ih]
    rw [← List.count_append, List.takeWhile_append_dropWhile]
  case case4 c rest hc ih =>
    rw [normSegs]
    rw [if_neg hc]
    simp [List.count_cons, ih]

/-- On paths whose colons all start well-formed parameter segments, the scanner eliminates every colon. -/
theorem normSegs_no_colon (l : List Char) (h : colonSegsOk l = true) :
    ':' ∉ normSegs l := by
  induction l using normSegs.induct
  case case1 => simp [normSegs]
  case case2 rest seg hseg ih =>
    rw [colonSegsOk] at h
    have hseg' : ((rest.takeWhile (fun d => d ≠ '/')).isEmpty = true) := hseg
    simp only [if_pos rfl, if_true, hseg'] at h
    simp at h
  case case3 rest seg hseg ih =>
    rw [colonSegsOk] at h
    have hseg' : ¬ ((rest.takeWhile (fun d => d ≠ '/')).isEmpty = true) := hseg
    simp only [if_pos rfl, if_true] at h
    rw [normSegs]
    simp only [if_pos rfl, if_true, if_neg hseg']
    rw [Bool.and_eq_true, Bool.and_eq_true] at h
    obtain ⟨⟨hne, hall⟩, hok⟩ := h
    intro hmem
    rcases List.mem_cons.mp hmem with h1 | h2
    · exact absurd h1 (by decide)
    rcases List.mem_append.mp h2 with h3 | h4
    · have := List.all_eq_true.mp hall _ h3
      simp at this
    rcases List.mem_cons.mp h4 with h5 | h6
    · exact absurd h5 (by decide)
    · exact ih hok h6
  case case4 c rest hc ih =>
    rw [colonSegsOk] at h
    rw [if_neg hc] at h
    rw [normSegs, if_neg hc]
    intro hmem
    rcases List.mem_cons.mp hmem with h1 | h2
    · exact hc h1.symm
    · exact ih h h2

/-- A `Define` binding is immediately visible to `Lookup`. -/
theorem Env.lookup_define_self (e : Env) (n v : String) :
    (e.define n v).lookup n = some v := by
  cases e with
  | nil => simp [Env.define, Env.lookup, List.lookup]
  | cons frame outer => simp [Env.define, Env.lookup, List.lookup]

/-- The function `processSchemaRef` returns schemas without a top-level specific marker unchanged. -/
theorem processSchemaRef_specFree (fuel : Nat) (comps : Comps) (s : Option Schema)
    (h : schemaTopSpecFree s = true) :
    processSchemaRef fuel comps s = some (comps, s) := by
  cases s with
  | none => rfl
  | some sc =>
    rw [processSchemaRef]
    rw [schemaTopSpecFree] at h
    by_cases hr : sc.ref = ""
    · simp [hr] at h ⊢
      cases he : sc.ext with
      | none => rfl
      | some e =>
        cases e with
        | specific t a => rw [he] at h; simp at h
        | typeParam i => rfl
        | simple tg it => rfl
    · simp [hr]

/-- The media-type walk leaves spec-free content untouched. -/
theorem processMediaList_specFree (fuel : Nat) (comps : Comps)
    (l : List (String × Option MediaT)) (h : contentSpecFree l = true) :
    processMediaList fuel comps l = some (comps, l) := by
  induction l with
  | nil => rfl
  | cons a rest ih =>
    rw [contentSpecFree] at h
    simp only [List.all_cons, Bool.and_eq_true] at h
    obtain ⟨ha, hrest⟩ := h
    have ihr := ih (by rwa [contentSpecFree])
    obtain ⟨k, mt⟩ := a
    cases mt with
    | none => rw [processMediaList, ihr]
    | some m =>
      rw [processMediaList]
      rw [mtSpecFree] at ha
      rw [processSchemaRef_specFree fuel comps m.schema ha]
      simp [ihr]

/-- The response walk leaves spec-free responses untouched. -/
theorem processResponses_specFree (fuel : Nat) (comps : Comps)
    (l : List (String × Option ResponseO))
    (h : l.all (fun p => respSpecFree p.2) = true) :
    processResponses fuel comps l = some (comps, l) := by
  induction l with
  | nil => rfl
  | cons a rest ih =>
    simp only [List.all_cons, Bool.and_eq_true] at h
    obtain ⟨ha, hrest⟩ := h
    have ihr := ih hrest
    obtain ⟨k, r⟩ := a
    cases r with
    | none => rw [processResponses, ihr]
    | some resp =>
      rw [processResponses]
      rw [respSpecFree] at ha
      rw [processMediaList_specFree fuel comps resp.content ha]
      simp [ihr]

/-- The operation walk leaves spec-free operations untouched. -/
theorem processOperationN_specFree (fuel : Nat) (comps : Comps) (op : OperationO)
    (h : opSpecFree (some op) = true) :
    processOperationN fuel comps op = some (comps, op) := by
  obtain ⟨resps, rb⟩ := op
  rw [opSpecFree, Bool.and_eq_true] at h
  obtain ⟨hresp, hrb⟩ := h
  rw [processOperationN, processResponses_specFree fuel comps resps hresp]
  cases rb with
  | none => rfl
  | some rb =>
    obtain ⟨rbref, rbcontent⟩ := rb
    simp only [rbSpecFree] at hrb
    by_cases hr : rbref = ""
    · subst hr
      simp only [ne_eq, not_true_eq_false, decide_False, Bool.false_or] at hrb
      simp [processMediaList_specFree fuel comps rbcontent hrb]
    · simp [hr]

/-- The operation-slot walk leaves spec-free slots untouched. -/
theorem processOpSlot_specFree (fuel : Nat) (comps : Comps) (op : Option OperationO)
    (h : opSpecFree op = true) :
    processOpSlot fuel comps op = some (comps, op) := by
  cases op with
  | none => rfl
  | some o => rw [processOpSlot, processOperationN_specFree fuel comps o h]

/-- The path-item walk leaves spec-free path items untouched. -/
theorem processPathItemN_specFree (fuel : Nat) (comps : Comps) (item : Option PathItemO)
    (h : itemSpecFree item = true) :
    processPathItemN fuel comps item = some (comps, item) := by
  cases item with
  | none => rfl
  | some it =>
    rw [itemSpecFree] at h
    simp only [Bool.and_eq_true] at h
    obtain ⟨⟨⟨⟨⟨⟨⟨⟨h1, h2⟩, h3⟩, h4⟩, h5⟩, h6⟩, h7⟩, h8⟩, h9⟩ := h
    rw [processPathItemN]
    simp only [processOpSlot_specFree fuel comps it.connect h1,
      processOpSlot_specFree fuel comps it.delete h2,
      processOpSlot_specFree fuel comps it.get h3,
      processOpSlot_specFree fuel comps it.head h4,
      processOpSlot_specFree fuel comps it.options h5,
      processOpSlot_specFree fuel comps it.patch h6,
      processOpSlot_specFree fuel comps it.post h7,
      processOpSlot_specFree fuel comps it.put h8,
      processOpSlot_specFree fuel comps it.trace h9]

/-- The paths walk leaves spec-free paths untouched. -/
theorem processPathsList_specFree (fuel : Nat) (comps : Comps)
    (l : List (String × Option PathItemO))
    (h : l.all (fun p => itemSpecFree p.2) = true) :
    processPathsList fuel comps l = some (comps, l) := by
  induction l with
  | nil => rfl
  | cons a rest ih =>
    simp only [List.all_cons, Bool.and_eq_true] at h
    obtain ⟨ha, hrest⟩ := h
    rw [processPathsList, processPathItemN_specFree fuel comps a.2 ha]
    simp [ih hrest]

/-- The components loop leaves spec-free components untouched, whatever keys it visits. -/
theorem normalizeComponentsLoop_specFree (fuel : Nat) (comps : Comps)
    (h : comps.all (fun p => schemaTopSpecFree p.2) = true) :
    ∀ ks, normalizeComponentsLoop fuel comps ks = some comps := by
  intro ks
  induction ks with
  | nil => rfl
  | cons k rest ih =>
    rw [normalizeComponentsLoop]
    cases hlk : lookupComp comps k with
    | none => exact ih
    | some v =>
      cases v with
      | none => exact ih
      | some s =>
        have hmem := lookup_mem (by rwa [lookupComp] at hlk)
        have hfree := List.all_eq_true.mp h _ hmem
        rw [schemaTopSpecFree] at hfree
        by_cases hr : s.ref = ""
        · simp [hr] at hfree
          cases he : s.ext with
          | none => simpa [hr, he] using ih
          | some e =>
            cases e with
            | specific t a => rw [he] at hfree; simp at hfree
            | typeParam i => simpa [hr, he] using ih
            | simple tg it => simpa [hr, he] using ih
        · simpa [hr] using ih

/-- Documents without top-level specific markers are fixed points of the normalizer. -/
theorem normalize_specFree_fixed (fuel : Nat) (d : T) (h : docTopSpecFree d = true) :
    normalize fuel d = some d := by
  rw [docTopSpecFree, Bool.and_eq_true] at h
  obtain ⟨hc, hp⟩ := h
  rw [normalize, normalizeComponentsLoop_specFree fuel d.components hc]
  simp [processPathsList_specFree fuel d.components d.paths hp]

/-- Projection of the extended info through a specialized-flag update. -/
theorem Schema.ext_setSpecialized (s : Schema) (b : Bool) : (s.setSpecialized b).ext = s.ext := by
  cases s; rfl

/-- Projection of the items through a specialized-flag update. -/
theorem Schema.items_setSpecialized (s : Schema) (b : Bool) : (s.setSpecialized b).items = s.items := by
  cases s; rfl

/-- Projection of the additional properties through a specialized-flag update. -/
theorem Schema.addProps_setSpecialized (s : Schema) (b : Bool) : (s.setSpecialized b).addProps = s.addProps := by
  cases s; rfl

/-- Projection of the properties through a specialized-flag update. -/
theorem Schema.props_setSpecialized (s : Schema) (b : Bool) : (s.setSpecialized b).props = s.props := by
  cases s; rfl

/-- Projection of the extended info after setting it. -/
theorem Schema.ext_setExt (s : Schema) (e : Option ExtInfo) : (s.setExt e).ext = e := by
  cases s; rfl

/-- Projection of the items through an extended-info update. -/
theorem Schema.items_setExt (s : Schema) (e : Option ExtInfo) : (s.setExt e).items = s.items := by
  cases s; rfl

/-- Projection of the additional properties through an extended-info update. -/
theorem Schema.addProps_setExt (s : Schema) (e : Option ExtInfo) : (s.setExt e).addProps = s.addProps := by
  cases s; rfl

/-- Projection of the properties through an extended-info update. -/
theorem Schema.props_setExt (s : Schema) (e : Option ExtInfo) : (s.setExt e).props = s.props := by
  cases s; rfl

/-- Projection of the extended info through a properties update. -/
theorem Schema.ext_setProps (s : Schema) (p : List (String × Option Schema)) : (s.setProps p).ext = s.ext := by
  cases s; rfl

/-- Projection of the properties after setting them. -/
theorem Schema.props_setProps (s : Schema) (p : List (String × Option Schema)) : (s.setProps p).props = p := by
  cases s; rfl

/-- The reference string of a component reference schema. -/
theorem ref_refComponentSchemas (k : String) :
    (refComponentSchemas k).ref = compSchemasRoot ++ k := rfl

/-- A component reference schema carries no extended info. -/
theorem ext_refComponentSchemas (k : String) :
    (refComponentSchemas k).ext = none := rfl

/-- A canonical component reference is never the empty string. -/
theorem compPrefix_append_ne_empty (k : String) : compSchemasRoot ++ k ≠ "" := by
  intro h
  have hd := congrArg String.data h
  rw [String.data_append] at hd
  have : compSchemasRoot.data = [] := (List.append_eq_nil.mp hd).1
  exact absurd this (by decide)

/-- Stripping the canonical reference root recovers the component key. -/
theorem stripCompPrefix_append (k : String) : stripCompSchemasRoot (compSchemasRoot ++ k) = k := by
  rw [stripCompSchemasRoot]
  rw [if_pos]
  · rw [String.data_append, List.drop_left]
  · rw [String.data_append]
    exact List.isPrefixOf_iff_prefix.mpr (List.prefix_append _ _)

/-- The mangled identity of a component reference schema is its key. -/
theorem getKey_refComponentSchemas (k : String) :
    (refComponentSchemas k).getKey = k := by
  rw [Schema.getKey]
  rw [if_pos]
  · exact stripCompPrefix_append k
  · exact compPrefix_append_ne_empty k

/-- Lookup after an in-place map replacement at the looked-up key. -/
theorem lookup_map_replace (k : String) (v : Option Schema)
    (t : List (String × Option Schema)) :
    List.lookup k (t.map (fun p => if p.1 = k then (k, v) else p)) =
      if (List.lookup k t).isSome then some v else none := by
  induction t with
  | nil => simp [List.lookup]
  | cons a t ih =>
    obtain ⟨a1, a2⟩ := a
    rw [List.map_cons]
    by_cases hk : a1 = k
    · subst hk
      rw [if_pos (show (a1, a2).1 = a1 from rfl)]
      simp only [List.lookup, beq_self_eq_true]
      simp
    · have hk' : (k == a1) = false := by
        simp only [beq_eq_false_iff_ne, ne_eq]
        exact fun he => hk he.symm
      rw [if_neg (show ¬ (a1, a2).1 = k from hk)]
      simp only [List.lookup, hk', ih]

/-- Lookup of other keys is unchanged by an in-place replacement. -/
theorem lookup_map_replace_ne (k k' : String) (v : Option Schema)
    (h : k' ≠ k) (t : List (String × Option Schema)) :
    List.lookup k' (t.map (fun p => if p.1 = k then (k, v) else p)) =
      List.lookup k' t := by
  induction t with
  | nil => simp
  | cons a t ih =>
    obtain ⟨a1, a2⟩ := a
    rw [List.map_cons]
    by_cases hk : a1 = k
    · rw [if_pos (show (a1, a2).1 = k from hk)]
      have hb2 : (k' == k) = false := by simpa using h
      have hb1 : (k' == a1) = false := by rw [hk]; exact hb2
      simp only [List.lookup, hb2, hb1, ih]
    · rw [if_neg (show ¬ (a1, a2).1 = k from hk)]
      simp only [List.lookup, ih]

/-- Lookup distributes over list append, preferring the left list. -/
theorem lookup_append_assoc (k : String) (l1 l2 : List (String × Option Schema)) :
    List.lookup k (l1 ++ l2) =
      match List.lookup k l1 with
      | some v => some v
      | none => List.lookup k l2 := by
  induction l1 with
  | nil => simp [List.lookup]
  | cons a t ih =>
    obtain ⟨a1, a2⟩ := a
    rw [List.cons_append, List.lookup, List.lookup]
    by_cases hk : k == a1
    · rw [hk]
    · have hb : (k == a1) = false := by simpa using hk
      rw [hb, ih]

/-- Looking up the key just stored by `setComp` yields the stored value. -/
theorem lookupComp_setComp_self (c : Comps) (k : String) (v : Option Schema) :
    lookupComp (setComp c k v) k = some v := by
  rw [setComp, lookupComp]
  by_cases h : (List.lookup k c).isSome
  · rw [if_pos h, lookup_map_replace, if_pos h]
  · rw [if_neg h, lookup_append_assoc]
    have hn : List.lookup k c = none := by
      cases hc : List.lookup k c with
      | none => rfl
      | some w => rw [hc] at h; simp at h
    rw [hn]
    simp [List.lookup]

/-- Looking up a different key is unchanged by `setComp`. -/
theorem lookupComp_setComp_ne (c : Comps) (k k' : String) (v : Option Schema)
    (h : k' ≠ k) : lookupComp (setComp c k v) k' = lookupComp c k' := by
  rw [setComp, lookupComp, lookupComp]
  by_cases hs : (List.lookup k c).isSome
  · rw [if_pos hs, lookup_map_replace_ne k k' v h]
  · rw [if_neg hs, lookup_append_assoc]
    cases hc : List.lookup k' c with
    | some w => rfl
    | none =>
      have hb : (k' == k) = false := by simpa using h
      simp [List.lookup, hb]

/-- Processing a bare type-param marker substitutes the indexed argument and leaves the components alone. -/
theorem process_marker (f : Nat) (comps : Comps) (s : Schema) (args : List Schema) (i : Nat)
    (href : s.ref = "") (hext : s.ext = some (.typeParam i)) (hi : i < args.length)
    (hitems : s.items = none) (hadd : s.addProps = none) (hprops : s.props = []) :
    process (f + 3) comps s args = some (comps, args[i]?) := by
  obtain ⟨arg, harg⟩ : ∃ arg, args[i]? = some arg :=
    ⟨args[i], List.getElem?_eq_getElem hi⟩
  rw [show f + 3 = (f + 2) + 1 from rfl, process]
  rw [unrefDoc]
  simp only [href, reduceIte, Schema.ext_setSpecialized, hext, harg]
  rw [show f + 2 = (f + 1) + 1 from rfl, processKids]
  simp only [Schema.items_setSpecialized, hitems, Schema.addProps_setSpecialized, hadd,
    Schema.props_setSpecialized, hprops, Option.isSome_none, Bool.false_eq_true, if_false]
  rw [processProps]

/-- The property loop over type-param markers succeeds and leaves the components alone. -/
theorem processProps_markers (args : List Schema) :
    ∀ (props : List (String × Option Schema)) (f : Nat) (comps : Comps),
      (∀ pr ∈ props, ∃ s' i, pr.2 = some s' ∧ s'.ref = "" ∧
          s'.ext = some (.typeParam i) ∧ i < args.length ∧ s'.items = none ∧
          s'.addProps = none ∧ s'.props = []) →
      ∃ newProps, processProps (f + 3 * props.length + 1) comps props args =
        some (comps, newProps) := by
  intro props
  induction props with
  | nil =>
    intro f comps _
    exact ⟨[], by rw [show f + 3 * ([] : List (String × Option Schema)).length + 1 = f + 1 from rfl, processProps]⟩
  | cons pr rest ih =>
    intro f comps h
    obtain ⟨s', i, h2, href, hext, hi, hitems, hadd, hprops⟩ :=
      h pr (List.mem_cons_self _ _)
    obtain ⟨k, v⟩ := pr
    simp only at h2
    subst h2
    obtain ⟨npRest, hnp⟩ := ih (f + 2) comps (fun q hq => h q (List.mem_cons_of_mem _ hq))
    refine ⟨(k, args[i]?) :: npRest, ?_⟩
    rw [show f + 3 * ((k, some s') :: rest).length + 1 = (f + 3 * rest.length + 3) + 1 by
      simp [List.length_cons]; ring]
    rw [processProps]
    rw [show f + 3 * rest.length + 3 = (f + 3 * rest.length) + 3 from rfl]
    rw [process_marker (f + 3 * rest.length) comps s' args i href hext hi hitems hadd hprops]
    rw [show (f + 3 * rest.length) + 3 = (f + 2) + 3 * rest.length + 1 by ring]
    dsimp only
    rw [hnp]

/-- Every parameter produced by the uri-binding loop is an original parameter or a freshly added path parameter for some property. -/
theorem parseBindUri_mem (props : List (String × Option Schema)) :
    ∀ (params0 res : List Parameter), parseBindUri params0 props = some res →
      ∀ p ∈ res, p ∈ params0 ∨ ∃ n s, (n, some s) ∈ props ∧
        p = { newPathParameter n with schema := some s, descr := s.descr } := by
  induction props with
  | nil =>
    intro params0 res h p hp
    rw [parseBindUri] at h
    cases h
    exact Or.inl hp
  | cons pr rest ih =>
    intro params0 res h p hp
    obtain ⟨n, v⟩ := pr
    cases v with
    | none => rw [parseBindUri] at h; cases h
    | some s =>
      rw [parseBindUri] at h
      rcases ih _ _ h p hp with hin | ⟨n', s', hmem, hpe⟩
      · rcases List.mem_append.mp hin with h1 | h2
        · exact Or.inl (List.mem_of_mem_filter h1)
        · rcases List.mem_singleton.mp h2 with rfl
          exact Or.inr ⟨n, s, List.mem_cons_self _ _, rfl⟩
      · exact Or.inr ⟨n', s', List.mem_cons_of_mem _ hmem, hpe⟩

/-- The uri-binding loop does not change the multiplicity of names outside the property list. -/
theorem parseBindUri_count_notin (props : List (String × Option Schema)) (n : String) :
    ∀ (params0 res : List Parameter), parseBindUri params0 props = some res →
      n ∉ props.map Prod.fst →
      res.countP (fun p => p.name == n) = params0.countP (fun p => p.name == n) := by
  induction props with
  | nil =>
    intro params0 res h _
    rw [parseBindUri] at h
    cases h
    rfl
  | cons pr rest ih =>
    intro params0 res h hn
    obtain ⟨m, v⟩ := pr
    cases v with
    | none => rw [parseBindUri] at h; cases h
    | some s =>
      rw [parseBindUri] at h
      simp only [List.map_cons, List.mem_cons, not_or] at hn
      obtain ⟨hnm, hnr⟩ := hn
      rw [ih _ _ h hnr]
      rw [List.countP_append]
      have h1 : (List.filter (fun p => p.name ≠ m) params0).countP (fun p => p.name == n) =
          params0.countP (fun p => p.name == n) := by
        rw [List.countP_filter]
        apply List.countP_congr
        intro a _
        by_cases ha : a.name = n
        · have ham : a.name ≠ m := by rw [ha]; exact hnm
          simp [ha, ham, hnm]
        · simp [ha]
      have hb : (m == n) = false := beq_eq_false_iff_ne.mpr (fun he => hnm he.symm)
      have h2 : List.countP (fun p => p.name == n)
          [{ newPathParameter m with schema := some s, descr := s.descr }] = 0 := by
        simp [List.countP_cons, newPathParameter, hb]
      rw [h1, h2]
      omega

/-- After the uri-binding loop, each property name has exactly one parameter. -/
theorem parseBindUri_count_in (props : List (String × Option Schema)) (n : String) :
    ∀ (params0 res : List Parameter), parseBindUri params0 props = some res →
      n ∈ props.map Prod.fst →
      res.countP (fun p => p.name == n) = 1 := by
  induction props with
  | nil => intro _ _ _ hn; simp at hn
  | cons pr rest ih =>
    intro params0 res h hn
    obtain ⟨m, v⟩ := pr
    cases v with
    | none => rw [parseBindUri] at h; cases h
    | some s =>
      rw [parseBindUri] at h
      by_cases hr : n ∈ rest.map Prod.fst
      · exact ih _ _ h hr
      · have hnm : n = m := by
          simp only [List.map_cons, List.mem_cons] at hn
          rcases hn with h1 | h2
          · exact h1
          · exact absurd h2 hr
        subst hnm
        rw [parseBindUri_count_notin rest n _ _ h hr]
        rw [List.countP_append]
        have h1 : (List.filter (fun p => p.name ≠ n) params0).countP (fun p => p.name == n) = 0 := by
          rw [List.countP_eq_zero]
          intro a ha
          have := List.of_mem_filter ha
          simp only [ne_eq, decide_not] at this
          simp only [beq_iff_eq]
          intro he
          rw [he] at this
          simp at this
        have h2 : List.countP (fun p => p.name == n)
            [{ newPathParameter n with schema := some s, descr := s.descr }] = 1 := by
          simp [List.countP_cons, newPathParameter]
        rw [h1, h2]

/-- After the uri-binding loop, the parameter carrying a property name is a required path parameter. -/
theorem parseBindUri_path_required (props : List (String × Option Schema)) (n : String) :
    ∀ (params0 res : List Parameter), parseBindUri params0 props = some res →
      n ∈ props.map Prod.fst →
      ∀ p ∈ res, p.name = n → p.loc = "path" ∧ p.required = true := by
  induction props with
  | nil => intro _ _ _ hn; simp at hn
  | cons pr rest ih =>
    intro params0 res h hn
    obtain ⟨m, v⟩ := pr
    cases v with
    | none => rw [parseBindUri] at h; cases h
    | some s =>
      rw [parseBindUri] at h
      by_cases hr : n ∈ rest.map Prod.fst
      · exact ih _ _ h hr
      · have hnm : n = m := by
          simp only [List.map_cons, List.mem_cons] at hn
          rcases hn with h1 | h2
          · exact h1
          · exact absurd h2 hr
        subst hnm
        intro p hp hpn
        rcases parseBindUri_mem rest _ _ h p hp with hin | ⟨n', s', hmem, hpe⟩
        · rcases List.mem_append.mp hin with h1 | h2
          · have hfil : p.name ≠ n := by simpa using List.of_mem_filter h1
            exact absurd hpn hfil
          · rcases List.mem_singleton.mp h2 with rfl
            exact ⟨rfl, rfl⟩
        · have hpname : p.name = n' := by rw [hpe]; rfl
          have hmemk : n' ∈ rest.map Prod.fst :=
            List.mem_map.mpr ⟨(n', some s'), hmem, rfl⟩
          rw [hpn] at hpname
          rw [← hpname] at hmemk
          exact absurd hmemk hr

/-- The property insertion preserves the absence of nil property values. -/
theorem withProperty_props_some (s : Schema) (name : String) (v : Schema)
    (h : ∀ pr ∈ s.props, pr.2 ≠ none) :
    ∀ pr ∈ (s.withProperty name v).props, pr.2 ≠ none := by
  intro pr hpr
  rw [Schema.withProperty] at hpr
  split at hpr
  · rw [Schema.props_setProps] at hpr
    rcases List.mem_map.mp hpr with ⟨q, hq, he⟩
    by_cases hqn : q.1 = name
    · rw [if_pos hqn] at he
      rw [← he]
      simp
    · rw [if_neg hqn] at he
      rw [← he]
      exact h q hq
  · rw [Schema.props_setProps] at hpr
    rcases List.mem_append.mp hpr with h1 | h2
    · exact h _ h1
    · rcases List.mem_singleton.mp h2 with rfl
      simp

/-- The property insertion keeps existing property names and adds the new one. -/
theorem withProperty_key_mem (s : Schema) (name : String) (v : Schema) (k : String)
    (h : k ∈ s.props.map Prod.fst ∨ k = name) :
    k ∈ (s.withProperty name v).props.map Prod.fst := by
  rw [Schema.withProperty]
  split
  · rw [Schema.props_setProps]
    next hsome =>
    have hkeys : (s.props.map (fun p => if p.1 = name then (name, some v) else p)).map Prod.fst =
        s.props.map Prod.fst := by
      rw [List.map_map]
      apply List.map_congr_left
      intro q _
      by_cases hqn : q.1 = name
      · simp [hqn]
      · simp [hqn]
    rw [hkeys]
    rcases h with h1 | h1
    · exact h1
    · subst h1
      rcases Option.isSome_iff_exists.mp hsome with ⟨w, hw⟩
      have := lookup_mem hw
      exact List.mem_map.mpr ⟨(k, w), this, rfl⟩
  · rw [Schema.props_setProps, List.map_append]
    rcases h with h1 | h1
    · exact List.mem_append.mpr (Or.inl h1)
    · subst h1
      exact List.mem_append.mpr (Or.inr (by simp))

/-- The built uri schema has no nil property values. -/
theorem buildUriSchema_props_some (fields : List UriField) :
    ∀ pr ∈ (buildUriSchema fields).props, pr.2 ≠ none := by
  rw [buildUriSchema]
  have : ∀ (s0 : Schema), (∀ pr ∈ s0.props, pr.2 ≠ none) →
      ∀ pr ∈ (fields.foldl (fun s f => s.withProperty (parseUriFieldName f) f.sch) s0).props,
        pr.2 ≠ none := by
    induction fields with
    | nil => intro s0 h0; exact h0
    | cons f rest ih =>
      intro s0 h0
      exact ih _ (withProperty_props_some s0 _ _ h0)
  exact this Schema.empty (by simp [Schema.empty, Schema.props])

/-- Every field of the struct contributes its parsed name to the built uri schema. -/
theorem buildUriSchema_key_mem (fields : List UriField) (f : UriField) (hf : f ∈ fields) :
    parseUriFieldName f ∈ (buildUriSchema fields).props.map Prod.fst := by
  rw [buildUriSchema]
  have : ∀ (rest : List UriField) (s0 : Schema),
      (f ∈ rest ∨ parseUriFieldName f ∈ s0.props.map Prod.fst) →
      parseUriFieldName f ∈
        (rest.foldl (fun s g => s.withProperty (parseUriFieldName g) g.sch) s0).props.map Prod.fst := by
    intro rest
    induction rest with
    | nil =>
      intro s0 h
      rcases h with h | h
      · simp at h
      · exact h
    | cons g grest ih =>
      intro s0 h
      rcases h with h | h
      · rcases List.mem_cons.mp h with rfl | hmem
        · exact ih _ (Or.inr (withProperty_key_mem s0 _ _ _ (Or.inr rfl)))
        · exact ih _ (Or.inl hmem)
      · exact ih _ (Or.inr (withProperty_key_mem s0 _ _ _ (Or.inl h)))
  exact this fields Schema.empty (Or.inl hf)

/-- The uri-binding loop succeeds on schemas without nil property values. -/
theorem parseBindUri_isSome (props : List (String × Option Schema)) :
    ∀ params0 : List Parameter, (∀ pr ∈ props, pr.2 ≠ none) →
      ∃ res, parseBindUri params0 props = some res := by
  induction props with
  | nil => intro params0 _; exact ⟨params0, rfl⟩
  | cons pr rest ih =>
    intro params0 h
    obtain ⟨n, v⟩ := pr
    cases v with
    | none => exact absurd rfl (h (n, none) (List.mem_cons_self _ _))
    | some s =>
      obtain ⟨res, hres⟩ := ih _ (fun q hq => h q (List.mem_cons_of_mem _ hq))
      exact ⟨res, by rw [parseBindUri]; exact hres⟩

/-! ## Claim theorems -/

/-- C1, counterexample: after the normalizer completes on the fixture document, the specialized component written under the mangled key carries extended-type-info of kind specific, and the generic template keeps its kind type-param property, both reachable through components/schemas (and the request-body position references the former), contradicting the claim that no reachable schema has such a marker. -/
theorem c1_counterexample_markers_remain :
    (normalize 100 fixtureDoc).isSome = true ∧
      compExtKind (normalizeD 100 fixtureDoc) "G[string]" = "specific" ∧
      compPropExtKind (normalizeD 100 fixtureDoc) "G" "a" = "typeParam" ∧
      reqBodySchemaRef (normalizeD 100 fixtureDoc) "/x" "application/json" =
        "#/components/schemas/G[string]" :=
  ⟨rfl, rfl, rfl, rfl⟩

-- Schema projection lemmas

/-- C1, amended: normalization does replace each operation-content schema whose top-level marker is specific over a component-referenced generic (whose template is neither specific nor a bare type parameter and whose properties are plain type-param markers) by a plain reference to the specialized component, but the extended-type markers are not eliminated from the document: the specialized entry stored under the mangled key itself carries kind specific, and the untouched generic template keeps its type-param members; the markers are only dropped at JSON serialization time. -/
theorem c1_amended_specialization (comps : Comps) (gkey : String) (G : Schema) (args : List Schema)
    (s : Schema) (f : Nat)
    (hsref : s.ref = "")
    (hsext : s.ext = some (.specific (refComponentSchemas gkey) args))
    (hG : lookupComp comps gkey = some (some G))
    (hGext : G.ext = none ∨ ∃ tg it, G.ext = some (.simple tg it))
    (hItems : G.items = none) (hAdd : G.addProps = none)
    (hProps : ∀ pr ∈ G.props, ∃ s' i, pr.2 = some s' ∧ s'.ref = "" ∧
        s'.ext = some (.typeParam i) ∧ i < args.length ∧ s'.items = none ∧
        s'.addProps = none ∧ s'.props = [])
    (hFresh : lookupComp comps (modelKey gkey args) = none) :
    ∃ comps' entry,
      processSchemaRef (f + 3 * G.props.length + 3) comps (some s) =
          some (comps', some (refComponentSchemas (modelKey gkey args))) ∧
        (refComponentSchemas (modelKey gkey args)).ext = none ∧
        (refComponentSchemas (modelKey gkey args)).ref ≠ "" ∧
        lookupComp comps' (modelKey gkey args) = some (some entry) ∧
        extKindOf entry.ext = "specific" ∧
        (modelKey gkey args ≠ gkey → lookupComp comps' gkey = some (some G)) := by
  have hrefne : ¬ ((refComponentSchemas gkey).ref = "") := by
    rw [ref_refComponentSchemas]
    exact compPrefix_append_ne_empty gkey
  have hstrip : stripCompSchemasRoot (refComponentSchemas gkey).ref = gkey := by
    rw [ref_refComponentSchemas]
    exact stripCompPrefix_append gkey
  obtain ⟨np, hnp⟩ := processProps_markers args G.props f
    (setComp comps (modelKey gkey args)
      (some ((G.setSpecialized true).setExt
        (some (.specific (refComponentSchemas gkey) args))))) hProps
  rw [processSchemaRef]
  simp only [hsref, ne_eq, not_true_eq_false, if_false, hsext]
  rw [show f + 3 * G.props.length + 3 = (f + 3 * G.props.length + 2) + 1 from rfl, process]
  rw [unrefDoc, if_neg hrefne, hstrip]
  rw [hG]
  simp only [getKey_refComponentSchemas, Schema.ext_setSpecialized]
  rw [if_neg hrefne]
  simp only [hFresh, Option.isSome_none, Bool.false_eq_true, if_false]
  have hw0ext : ((G.setSpecialized true).setExt
      (some (ExtInfo.specific (refComponentSchemas gkey) args))).ext =
      some (ExtInfo.specific (refComponentSchemas gkey) args) := Schema.ext_setExt _ _
  have hkids : processKids (f + 3 * G.props.length + 2)
      (setComp comps (modelKey gkey args)
        (some ((G.setSpecialized true).setExt
          (some (ExtInfo.specific (refComponentSchemas gkey) args))))) args
      ((G.setSpecialized true).setExt (some (ExtInfo.specific (refComponentSchemas gkey) args)))
      ((G.setSpecialized true).setExt (some (ExtInfo.specific (refComponentSchemas gkey) args))) =
      some (setComp comps (modelKey gkey args)
        (some ((G.setSpecialized true).setExt
          (some (ExtInfo.specific (refComponentSchemas gkey) args)))),
        (G.setSpecialized true).setExt (some (ExtInfo.specific (refComponentSchemas gkey) args)),
        np) := by
    rw [show f + 3 * G.props.length + 2 = (f + 3 * G.props.length + 1) + 1 from rfl, processKids]
    simp only [Schema.items_setExt, Schema.items_setSpecialized, hItems,
      Schema.addProps_setExt, Schema.addProps_setSpecialized, hAdd,
      Schema.props_setExt, Schema.props_setSpecialized,
      Option.isSome_none, Bool.false_eq_true, if_false]
    rw [hnp]
  rcases hGext with hge | ⟨tg, it, hge⟩ <;>
    rw [hge] <;> dsimp only <;> rw [hkids] <;> dsimp only <;>
    refine ⟨_, ((G.setSpecialized true).setExt
      (some (ExtInfo.specific (refComponentSchemas gkey) args))).setProps np,
      rfl, rfl, ?_, ?_, ?_, ?_⟩ <;>
    first
      | (rw [ref_refComponentSchemas]; exact compPrefix_append_ne_empty _)
      | exact lookupComp_setComp_self _ _ _
      | (rw [Schema.ext_setProps, Schema.ext_setExt]; rfl)
      | (intro hne
         rw [lookupComp_setComp_ne _ _ _ _ (fun he => hne he.symm),
           lookupComp_setComp_ne _ _ _ _ (fun he => hne he.symm)]
         exact hG)

/-- C1, witness: the amended theorem applied to the concrete fixture (a generic component with a type-param property, instantiated at the string schema). -/
theorem c1_amended_specialization_witness :
    ∃ comps' entry,
      processSchemaRef (0 + 3 * genericG.props.length + 3) [("G", some genericG)] (some specUse) =
          some (comps', some (refComponentSchemas (modelKey "G" [strSchema]))) ∧
        (refComponentSchemas (modelKey "G" [strSchema])).ext = none ∧
        (refComponentSchemas (modelKey "G" [strSchema])).ref ≠ "" ∧
        lookupComp comps' (modelKey "G" [strSchema]) = some (some entry) ∧
        extKindOf entry.ext = "specific" ∧
        (modelKey "G" [strSchema] ≠ "G" → lookupComp comps' "G" = some (some genericG)) :=
  c1_amended_specialization [("G", some genericG)] "G" genericG [strSchema] specUse 0 rfl rfl rfl
    (Or.inr ⟨"object", none, rfl⟩) rfl rfl
    (by
      intro pr hpr
      rw [show genericG.props = [("a", some tpMarker)] from rfl] at hpr
      rw [List.mem_singleton] at hpr
      subst hpr
      exact ⟨tpMarker, 0, rfl, rfl, rfl, by decide, rfl, rfl, rfl⟩)
    rfl

/-- C2, code bug: with the plugin flag set to gin on the command line and an implicit eapi.yaml declaring plugin echo (plus file values for output and depends), the run uses the file values, not the flag values; the Destination-bound flags are overwritten when before unmarshals the YAML after flag parsing, so the claim that command-line flags win does not hold on this code. -/
theorem c2_config_file_overrides_flags :
    entrypointEffectiveConfig
        { plugin := some "gin", output := some "out", depends := some ["m"] }
        none
        (some { plugin := some "echo", output := some "ydocs", depends := some ["ydep"] }) =
      .ok { plugin := "echo", dir := ".", output := "ydocs", depends := ["ydep"],
            strictMode := false, logLevel := "info" } := rfl

/-- C3, counterexample: normalizePath leaves the star form untouched; the path /files/*filepath normalizes to itself and not to the brace form, so wildcard placeholders are not rewritten as the claim states. -/
theorem c3_counterexample_star_not_rewritten :
    normalizePath "/files/*filepath" = "/files/*filepath" ∧
      normalizePath "/files/*filepath" ≠ "/files/\x7bfilepath\x7d" := by
  have e : normalizePath "/files/*filepath" = "/files/*filepath" := by
    simp [normalizePath, normSegs]
  exact ⟨e, by rw [e]; decide⟩

/-- C3, amended: normalizePath rewrites only the colon-name segments; star characters are preserved verbatim (so star placeholders survive into registered full paths), and on paths whose colons all begin well-formed parameter runs no colon remains in the output. -/
theorem c3_amended_normalizePath (p : String) :
    (normalizePath p).data.count '*' = p.data.count '*' ∧
      (colonSegsOk p.data = true → ':' ∉ (normalizePath p).data) := by
  constructor
  · exact normSegs_count_star p.data
  · intro h
    exact normSegs_no_colon p.data h

/-- C3, witness: the amended theorem applied to the concrete path /api/:id/*rest, discharging the well-formedness hypothesis. -/
theorem c3_amended_normalizePath_witness : ':' ∉ (normalizePath "/api/:id/*rest").data :=
  (c3_amended_normalizePath "/api/:id/*rest").2 (by simp [colonSegsOk])

/-- C4: the full path of a registered API equals the path-join of the enclosing route-group prefixes with the normalized local path; in particular the scenario g := r.Group("/api"); v2 := g.Group("/v2"); v2.GET("/x", h) registers exactly one API with full path /api/v2/x, and in general two nested Group bindings compose by path-joining the outer prefix with each normalized group path before the local path. -/
theorem c4_route_group_composition (e : Env) (r g v2 a b x verb : String) :
    ((runRoutes [[]] scenarioStmts).2 = [{ method := "GET", fullPath := "/api/v2/x" }]) ∧
      (parseAPIReg (assignStmt (assignStmt e .define g r a) .define v2 g b) v2 verb x =
        { method := verb,
          fullPath := pathJoin
            (pathJoin (pathJoin (envPrefixOf e r) (normalizePath (trimQuotes a)))
              (normalizePath (trimQuotes b)))
            (normalizePath (trimQuotes x)) }) := by
  constructor
  · simp [scenarioStmts, runRoutes, routeStep, assignStmt, parseAPIReg, envPrefixOf,
      Env.lookup, Env.define, Env.resolve, trimQuotes, normalizePath, normSegs,
      pathJoin, pathClean, splitSlash, joinSlash]
  · simp [assignStmt, parseAPIReg, envPrefixOf, Env.lookup_define_self]

/-- C5, counterexample: running the normalizer a second time on the already-normalized fixture document changes it; the second pass rewrites the specialized component (which still carries its specific marker) into a bare self-reference, so normalizing twice differs from normalizing once. -/
theorem c5_counterexample_not_idempotent :
    normalizeD 100 (normalizeD 100 fixtureDoc) ≠ normalizeD 100 fixtureDoc := fun h =>
  absurd (congrArg (fun d => compRefField d "G[string]") h) (by decide)

/-- C5, amended: the normalizer is the identity, and hence idempotent, on documents with no top-level specific marker at any inspected position; in general it is not idempotent, because the specialized components it writes still carry specific markers that a second run folds into self-references. -/
theorem c5_amended_idempotent_on_spec_free (fuel fuel2 : Nat) (d : T) (h : docTopSpecFree d = true) :
    normalize fuel d = some d ∧
      normalizeD fuel2 (normalizeD fuel d) = normalizeD fuel d := by
  have h1 := normalize_specFree_fixed fuel d h
  have hD : normalizeD fuel d = d := by rw [normalizeD, h1]; rfl
  refine ⟨h1, ?_⟩
  rw [hD, normalizeD, normalize_specFree_fixed fuel2 d h]
  rfl

/-- C5, witness: the amended theorem applied to a concrete marker-free document. -/
theorem c5_amended_idempotent_witness :
    normalize 5 { components := [("S", some strSchema)], paths := [] } =
        some { components := [("S", some strSchema)], paths := [] } ∧
      normalizeD 7 (normalizeD 5 { components := [("S", some strSchema)], paths := [] }) =
        normalizeD 5 { components := [("S", some strSchema)], paths := [] } :=
  c5_amended_idempotent_on_spec_free 5 7 _ (by decide)

/-- C6, counterexample: with strict mode off, a bind-with call whose binding selector is unrecognized still reaches the process exit; the outcome is the exit, not a warning that lets analysis continue as the claim states. -/
theorem c6_counterexample_exit_when_not_strict :
    parseBindWith false [.otherE, .sel "Unknown"] true = .exitOne := by decide

/-- C6, amended: whenever the binding selector yields no content type, parseBindWith logs a warning and exits the process regardless of the strict-mode flag, which the source never consults on this path. -/
theorem c6_amended_exit_unconditional (strict : Bool) (a b : BindingExpr) (rest : List BindingExpr) (r : Bool)
    (h : getContentTypeFromBinding b = "") :
    parseBindWith strict (a :: b :: rest) r = .exitOne := by
  simp [parseBindWith, h]

/-- C6, witness: the amended theorem applied with strict mode on and a bare identifier binding argument. -/
theorem c6_amended_exit_witness : parseBindWith true [.otherE, .identE "bindVar"] true = .exitOne :=
  c6_amended_exit_unconditional true .otherE (.identE "bindVar") [] true rfl

/-- C7, counterexample: the DefaultPostForm call with literals defaultPostForm and yyyy stores a form-data property carrying no default value, because the dispatch calls parseFormData, which never reads the second argument, contradicting the claim for DefaultPostForm. -/
theorem c7_counterexample_default_ignored :
    formPropDefault (defaultPostFormStep goodsDownState
        [.lit "\"defaultPostForm\"", .lit "\"yyyy\""] {}) "ShopGoodsDownRequest" "defaultPostForm"
      = some none ∧ (some none : Option (Option String)) ≠ some (some "yyyy") := by
  exact ⟨rfl, by decide⟩

/-- C7, amended: DefaultQuery produces a query parameter named by the unquoted first literal whose string schema carries the unquoted second literal as default, while DefaultPostForm adds a form-data property named by the first literal and ignores its second argument entirely. -/
theorem c7_amended_default_handling (cmt : CommentInfo) (n d : String) (st : FormState) (d' : String) :
    (primitiveParamWithDefault cmt [.lit n, .lit d] "query" =
        some { name := trimQuotes n, loc := "query", required := cmt.requiredTag,
               schema := some (((Schema.empty.setTitle (trimQuotes n)).setTy "string").setDflt
                 (some (goUnquote d))),
               descr := cmt.text }) ∧
      defaultPostFormStep st [.lit n, .lit d] cmt = defaultPostFormStep st [.lit n, .lit d'] cmt := by
  exact ⟨rfl, rfl⟩

-- C3 lemmas

/-- C8: binding a struct through the uri-binding path yields, for every struct field, exactly one parameter named by the first comma-separated entry of the uri tag (or the field name without one), with location path and required true; any earlier parameter of the same name is removed by the filter step. -/
theorem c8_bind_uri_path_params (params0 : List Parameter) (fields : List UriField) (f : UriField)
    (hf : f ∈ fields) :
    ∃ res, parseBindUri params0 (buildUriSchema fields).props = some res ∧
      res.countP (fun p => p.name == parseUriFieldName f) = 1 ∧
      ∀ p ∈ res, p.name = parseUriFieldName f → p.loc = "path" ∧ p.required = true := by
  obtain ⟨res, hres⟩ :=
    parseBindUri_isSome (buildUriSchema fields).props params0 (buildUriSchema_props_some fields)
  have hkey := buildUriSchema_key_mem fields f hf
  exact ⟨res, hres,
    parseBindUri_count_in _ _ _ _ hres hkey,
    parseBindUri_path_required _ _ _ _ hres hkey⟩

/-- C8, witness: the theorem applied to a single field Guid tagged uri:guid. -/
theorem c8_bind_uri_path_params_witness :
    ∃ res, parseBindUri []
        (buildUriSchema [⟨"Guid", [("uri", "guid")], strSchema⟩]).props = some res ∧
      res.countP (fun p => p.name == parseUriFieldName ⟨"Guid", [("uri", "guid")], strSchema⟩) = 1 ∧
      ∀ p ∈ res, p.name = parseUriFieldName ⟨"Guid", [("uri", "guid")], strSchema⟩ →
        p.loc = "path" ∧ p.required = true :=
  c8_bind_uri_path_params [] [⟨"Guid", [("uri", "guid")], strSchema⟩] ⟨"Guid", [("uri", "guid")], strSchema⟩
    (List.mem_singleton.mpr rfl)

/-- C9: starting from an empty definitions index, any sequence of Set operations leaves the lookup of the empty key at nil and every stored key nonempty; a function with a bare generic receiver indeed has the empty key. -/
theorem c9_definitions_no_empty_key (ops : List Defn) :
    ((Definitions.setAll [] ops).get "" = none ∧
      ∀ kv ∈ Definitions.setAll [] ops, kv.1 ≠ "") ∧
      Defn.key (Defn.funcDef "pkg" .indexRecv "Handler") = "" := by
  refine ⟨⟨?_, definitions_setAll_keys ops [] (by simp)⟩, rfl⟩
  cases h : (Definitions.setAll [] ops).get "" with
  | none => rfl
  | some v =>
    have hm := lookup_mem h
    exact absurd rfl (definitions_setAll_keys ops [] (by simp) _ hm)

/-- C9, witness: the theorem applied to a concrete one-element operation sequence. -/
theorem c9_definitions_no_empty_key_witness :
    ((Definitions.setAll [] [Defn.typeDef "p" "A"]).get "" = none ∧
      ∀ kv ∈ Definitions.setAll [] [Defn.typeDef "p" "A"], kv.1 ≠ "") ∧
      Defn.key (Defn.funcDef "pkg" .indexRecv "Handler") = "" :=
  c9_definitions_no_empty_key [Defn.typeDef "p" "A"]

/-- C10: every parameter built by the primitive accessor path from a literal first argument carries a schema of type string whose title equals the parameter name, for both the path and query locations, independent of any Go typing information (which the source never consults here). -/
theorem c10_primitive_param_string_schema (cmt : CommentInfo) (raw : String) (rest : List GoExpr) (loc : String)
    (hloc : loc = "path" ∨ loc = "query") :
    ∃ p, primitiveParam cmt (.lit raw :: rest) loc = some p ∧
      p.name = trimQuotes raw ∧
      (∃ s, p.schema = some s ∧ s.ty = "string" ∧ s.title = trimQuotes raw) ∧
      p.loc = loc := by
  rcases hloc with h | h <;> subst h
  · exact ⟨_, rfl, rfl, ⟨_, rfl, rfl, rfl⟩, rfl⟩
  · exact ⟨_, rfl, rfl, ⟨_, rfl, rfl, rfl⟩, rfl⟩

/-- C10, witness: the theorem applied to the literal guid at the path location. -/
theorem c10_primitive_param_string_schema_witness :
    ∃ p, primitiveParam {} (.lit "\"guid\"" :: []) "path" = some p ∧
      p.name = trimQuotes "\"guid\"" ∧
      (∃ s, p.schema = some s ∧ s.ty = "string" ∧ s.title = trimQuotes "\"guid\"") ∧
      p.loc = "path" :=
  c10_primitive_param_string_schema {} "\"guid\"" [] "path" (Or.inl rfl)

end Eapi
